import Mathlib

/-!
Verification of the agentshare session store and its MCP server shell.

The development shallowly embeds `src/agentshare/context/models.py`,
`src/agentshare/context/store.py` and `src/agentshare/mcp/server.py`:

* Python `json.dumps` / `json.loads` (as used on the `tags`, `key_decisions`,
  `files_modified` and `metadata` columns) are modelled over `JVal`, the
  JSON value domain with numbers restricted to integers.  `dumps` reproduces
  CPython's default output (`ensure_ascii=True`, separators `", "` and
  `": "`, `\uXXXX` escapes including surrogate pairs); `loads` is a parser
  for that canonical serialization format — the only format the code under
  verification ever writes.
* Python `datetime` is modelled by `PyDatetime` (microsecond fields, optional
  whole-minute UTC offset, the ranges `datetime` itself enforces), with
  `isoformat` / `fromisoformat` round-tripping.
* The SQLite layer of `SessionStore` is modelled by explicit `sessions` and
  `sessions_fts` tables.  The model reproduces the semantics that decide the
  claims: `INSERT OR REPLACE` allocates `max rowid + 1` *before* deleting the
  conflicting row and does **not** fire the `sessions_ad` delete trigger
  (`PRAGMA recursive_triggers` is off by default), while the `AFTER INSERT`
  trigger does fire; the FTS5 external-content table (`content=sessions`)
  stores only the inverted index and reads row values back from `sessions`
  by rowid at query time, erroring when the content row is gone; an explicit
  `DELETE` fires `sessions_ad`, which removes the index entry matching the
  deleted row's rowid and values.  FTS5 `MATCH` is modelled for bareword
  queries (whitespace-separated alphanumeric terms, implicit AND,
  case-insensitive), the tokenizer being unicode61 restricted to ASCII;
  any other query text is modelled as the query-syntax error FTS5 raises.
  `LIMIT` is modelled as a nonnegative count.
-/

namespace AgentShare

/-- JSON values: the domain of Python's `json` module restricted to integer
numbers (floats are outside this model).  Objects are key/value lists in
document order, matching Python dicts' insertion order. -/
inductive JVal where
  | null
  | bool (b : Bool)
  | int (n : Int)
  | str (s : String)
  | arr (elems : List JVal)
  | obj (fields : List (String × JVal))

/-- Decimal digit character for `n < 10`. -/
def digitChar (n : Nat) : Char := Char.ofNat (48 + n)

/-- Decimal digits, most significant first, with an explicit fuel bound so
that the recursion is structural (any fuel above `n` yields the digits of
`n`). -/
def natCharsAux : Nat → Nat → List Char
  | 0, _ => []
  | fuel + 1, n =>
    if n < 10 then [digitChar n]
    else natCharsAux fuel (n / 10) ++ [digitChar (n % 10)]

/-- Decimal digits of `n`, most significant first, as Python's `repr` prints a
nonnegative integer. -/
def natChars (n : Nat) : List Char := natCharsAux (n + 1) n

/-- Characters of a Python integer literal: optional minus sign, then digits. -/
def intChars (i : Int) : List Char :=
  if i < 0 then '-' :: natChars i.natAbs else natChars i.natAbs

/-- Lowercase hexadecimal digit character for `n < 16`, as CPython's
`\uXXXX` escapes use. -/
def hexDigitChar (n : Nat) : Char :=
  if n < 10 then Char.ofNat (48 + n) else Char.ofNat (87 + n)

/-- Four hexadecimal digit characters of a code unit `n < 0x10000`. -/
def hex4chars (n : Nat) : List Char :=
  [hexDigitChar (n / 4096 % 16), hexDigitChar (n / 256 % 16),
   hexDigitChar (n / 16 % 16), hexDigitChar (n % 16)]

/-- A `\uXXXX` escape for a code unit `n < 0x10000`. -/
def uEscape (n : Nat) : List Char := '\\' :: 'u' :: hex4chars n

/-- How CPython's `json.dumps` (with the default `ensure_ascii=True`) writes
one character of a string: the two-character short escapes, printable ASCII
verbatim, and `\uXXXX` escapes otherwise, astral characters as a surrogate
pair. -/
def escapeChar (c : Char) : List Char :=
  if c = '"' then ['\\', '"']
  else if c = '\\' then ['\\', '\\']
  else if c = '\n' then ['\\', 'n']
  else if c = '\r' then ['\\', 'r']
  else if c = '\t' then ['\\', 't']
  else if c.toNat = 8 then ['\\', 'b']
  else if c.toNat = 12 then ['\\', 'f']
  else if 32 ≤ c.toNat ∧ c.toNat ≤ 126 then [c]
  else if c.toNat ≤ 65535 then uEscape c.toNat
  else uEscape (55296 + (c.toNat - 65536) / 1024) ++
       uEscape (56320 + (c.toNat - 65536) % 1024)

/-- A whole string body, escaped. -/
def escChars (l : List Char) : List Char := l.flatMap escapeChar

/-- A JSON string literal, quotes included. -/
def strChars (s : String) : List Char := '"' :: (escChars s.data ++ ['"'])

mutual
/-- Characters `json.dumps` emits for a value (default separators: `", "`
between items, `": "` after keys). -/
def dumpsChars : JVal → List Char
  | .null => ['n', 'u', 'l', 'l']
  | .bool b => if b then ['t', 'r', 'u', 'e'] else ['f', 'a', 'l', 's', 'e']
  | .int n => intChars n
  | .str s => strChars s
  | .arr [] => ['[', ']']
  | .arr (x :: xs) => '[' :: (dumpsSeq (x :: xs) ++ [']'])
  | .obj [] => ['\x7b', '\x7d']
  | .obj (kv :: kvs) => '\x7b' :: (dumpsPairs (kv :: kvs) ++ ['\x7d'])

/-- Array elements joined by `", "`. -/
def dumpsSeq : List JVal → List Char
  | [] => []
  | [x] => dumpsChars x
  | x :: y :: ys => dumpsChars x ++ ',' :: ' ' :: dumpsSeq (y :: ys)

/-- Object members `"key": value` joined by `", "`. -/
def dumpsPairs : List (String × JVal) → List Char
  | [] => []
  | [(k, v)] => strChars k ++ ':' :: ' ' :: dumpsChars v
  | (k, v) :: kv :: kvs =>
      strChars k ++ ':' :: ' ' :: dumpsChars v ++ ',' :: ' ' :: dumpsPairs (kv :: kvs)
end

/-- Python's `json.dumps` with default arguments. -/
def dumps (v : JVal) : String := String.mk (dumpsChars v)

/-- Value of a hexadecimal digit character (`json.loads` accepts either case). -/
def hexVal (c : Char) : Option Nat :=
  if 48 ≤ c.toNat ∧ c.toNat ≤ 57 then some (c.toNat - 48)
  else if 97 ≤ c.toNat ∧ c.toNat ≤ 102 then some (c.toNat - 87)
  else if 65 ≤ c.toNat ∧ c.toNat ≤ 70 then some (c.toNat - 55)
  else none

/-- Four hexadecimal digits, most significant first. -/
def parseHex4 : List Char → Option (Nat × List Char)
  | a :: b :: c :: d :: rest =>
      match hexVal a, hexVal b, hexVal c, hexVal d with
      | some x, some y, some z, some w => some (((x * 16 + y) * 16 + z) * 16 + w, rest)
      | _, _, _, _ => none
  | _ => none

/-- The character a two-character escape stands for. -/
def shortEscape (e : Char) : Option Char :=
  if e = '"' then some '"'
  else if e = '\\' then some '\\'
  else if e = 'n' then some '\n'
  else if e = 'r' then some '\r'
  else if e = 't' then some '\t'
  else if e = 'b' then some (Char.ofNat 8)
  else if e = 'f' then some (Char.ofNat 12)
  else none

/-- A `\uXXXX` escape body (after `\u`), recombining surrogate pairs as
`json.loads` does; lone surrogates are rejected. -/
def parseUEscape (cs2 : List Char) : Option (Char × List Char) :=
  match parseHex4 cs2 with
  | none => none
  | some (n, cs3) =>
    if 55296 ≤ n ∧ n ≤ 56319 then
      match cs3 with
      | a :: b :: cs4 =>
        if a = '\\' ∧ b = 'u' then
          match parseHex4 cs4 with
          | some (m, cs5) =>
              if 56320 ≤ m ∧ m ≤ 57343 then
                some (Char.ofNat (65536 + (n - 55296) * 1024 + (m - 56320)), cs5)
              else none
          | none => none
        else none
      | _ => none
    else if 56320 ≤ n ∧ n ≤ 57343 then none
    else some (Char.ofNat n, cs3)

/-- String body parser (after the opening quote): undoes `escapeChar`.  One
unit of fuel is spent per produced character. -/
def parseStrAux : Nat → List Char → Option (List Char × List Char)
  | 0, _ => none
  | _ + 1, [] => none
  | fuel + 1, c :: cs =>
    if c = '"' then some ([], cs)
    else if c = '\\' then
      match cs with
      | [] => none
      | e :: cs2 =>
        if e = 'u' then
          match parseUEscape cs2 with
          | some (u, cs3) => (parseStrAux fuel cs3).map (fun p => (u :: p.1, p.2))
          | none => none
        else
          match shortEscape e with
          | some u => (parseStrAux fuel cs2).map (fun p => (u :: p.1, p.2))
          | none => none
    else (parseStrAux fuel cs).map (fun p => (c :: p.1, p.2))

/-- A maximal run of decimal digits, read as a number. -/
def parseNat (cs : List Char) : Option (Nat × List Char) :=
  match cs.takeWhile (fun c => c.isDigit) with
  | [] => none
  | ds => some (ds.foldl (fun a c => a * 10 + (c.toNat - 48)) 0,
                cs.dropWhile (fun c => c.isDigit))

/-- Expect an exact literal continuation. -/
def parseLit : List Char → List Char → Option (List Char)
  | [], cs => some cs
  | _ :: _, [] => none
  | p :: ps, c :: cs => if c = p then parseLit ps cs else none

mutual
/-- Value parser for the canonical `dumps` output format, fuelled. -/
def parseVal : Nat → List Char → Option (JVal × List Char)
  | 0, _ => none
  | _ + 1, [] => none
  | fuel + 1, c :: cs =>
    if c = 'n' then (parseLit ['u', 'l', 'l'] cs).map (fun r => (JVal.null, r))
    else if c = 't' then (parseLit ['r', 'u', 'e'] cs).map (fun r => (JVal.bool true, r))
    else if c = 'f' then (parseLit ['a', 'l', 's', 'e'] cs).map (fun r => (JVal.bool false, r))
    else if c = '"' then
      (parseStrAux fuel cs).map (fun p => (JVal.str (String.mk p.1), p.2))
    else if c = '[' then
      match cs with
      | [] => none
      | d :: rest =>
        if d = ']' then some (JVal.arr [], rest)
        else (parseSeq fuel (d :: rest)).map (fun p => (JVal.arr p.1, p.2))
    else if c = '\x7b' then
      match cs with
      | [] => none
      | d :: rest =>
        if d = '\x7d' then some (JVal.obj [], rest)
        else (parsePairs fuel (d :: rest)).map (fun p => (JVal.obj p.1, p.2))
    else if c = '-' then
      (parseNat cs).map (fun p => (JVal.int (-(p.1 : Int)), p.2))
    else if c.isDigit then
      (parseNat (c :: cs)).map (fun p => (JVal.int (p.1 : Int), p.2))
    else none

/-- One or more `", "`-separated array elements, then the closing bracket. -/
def parseSeq : Nat → List Char → Option (List JVal × List Char)
  | 0, _ => none
  | fuel + 1, cs =>
    match parseVal fuel cs with
    | none => none
    | some (v, rest) =>
      match rest with
      | [] => none
      | d :: rest2 =>
        if d = ']' then some ([v], rest2)
        else if d = ',' then
          match rest2 with
          | [] => none
          | e :: rest3 =>
            if e = ' ' then
              match parseSeq fuel rest3 with
              | some (vs, rest4) => some (v :: vs, rest4)
              | none => none
            else none
        else none

/-- One or more `", "`-separated `"key": value` members, then the closing
brace. -/
def parsePairs : Nat → List Char → Option (List (String × JVal) × List Char)
  | 0, _ => none
  | fuel + 1, cs =>
    match cs with
    | [] => none
    | q :: cs1 =>
      if q = '"' then
        match parseStrAux fuel cs1 with
        | none => none
        | some (k, rest) =>
          match rest with
          | a :: b :: rest2 =>
            if a = ':' ∧ b = ' ' then
              match parseVal fuel rest2 with
              | none => none
              | some (v, rest3) =>
                match rest3 with
                | [] => none
                | d :: rest4 =>
                  if d = '\x7d' then some ([(String.mk k, v)], rest4)
                  else if d = ',' then
                    match rest4 with
                    | [] => none
                    | e :: rest5 =>
                      if e = ' ' then
                        match parsePairs fuel rest5 with
                        | some (kvs, rest6) => some ((String.mk k, v) :: kvs, rest6)
                        | none => none
                      else none
                  else none
            else none
          | _ => none
      else none
end

/-- Python's `json.loads`, on the canonical serialization format: parse a
complete document, requiring all input consumed. -/
def loads (s : String) : Option JVal :=
  match parseVal (s.data.length + 1) s.data with
  | some (v, []) => some v
  | _ => none

mutual
/-- Fuel requirement of `parseVal` on a value's canonical serialization. -/
def jsize : JVal → Nat
  | .null => 1
  | .bool _ => 1
  | .int _ => 1
  | .str s => s.data.length + 2
  | .arr xs => 1 + lsize xs
  | .obj kvs => 1 + psize kvs

/-- Fuel requirement of `parseSeq`. -/
def lsize : List JVal → Nat
  | [] => 0
  | x :: xs => 1 + jsize x + lsize xs

/-- Fuel requirement of `parsePairs`. -/
def psize : List (String × JVal) → Nat
  | [] => 0
  | (k, v) :: kvs => k.data.length + 2 + jsize v + psize kvs
end

/-- Input whose head cannot extend a decimal digit run. -/
def notDigitStart : List Char → Bool
  | [] => true
  | c :: _ => !c.isDigit

theorem string_mk_data (s : String) : String.mk s.data = s := rfl

theorem digitChar_isDigit {n : Nat} (h : n < 10) : (digitChar n).isDigit = true := by
  interval_cases n <;> decide

theorem digitChar_toNat {n : Nat} (h : n < 10) : (digitChar n).toNat = 48 + n := by
  interval_cases n <;> decide

theorem isDigit_ne {c : Char} (h : c.isDigit = true) :
    c ≠ 'n' ∧ c ≠ 't' ∧ c ≠ 'f' ∧ c ≠ '"' ∧ c ≠ '[' ∧ c ≠ '\x7b' ∧ c ≠ '-' ∧
    c ≠ ']' ∧ c ≠ '\x7d' := by
  refine ⟨?_, ?_, ?_, ?_, ?_, ?_, ?_, ?_, ?_⟩ <;>
    (intro h'; subst h'; exact absurd h (by decide))

theorem natCharsAux_irrel (n : Nat) : ∀ f g, n < f → n < g →
    natCharsAux f n = natCharsAux g n := by
  induction n using Nat.strongRecOn with
  | _ n ih =>
    intro f g hf hg
    match f, g with
    | f' + 1, g' + 1 =>
      by_cases h : n < 10
      · simp [natCharsAux, h]
      · simp only [natCharsAux, if_neg h]
        rw [ih (n / 10) (by omega) f' g' (by omega) (by omega)]

theorem natChars_eq (n : Nat) :
    natChars n = if n < 10 then [digitChar n]
      else natChars (n / 10) ++ [digitChar (n % 10)] := by
  show natCharsAux (n + 1) n = _
  by_cases h : n < 10
  · simp [natCharsAux, h]
  · simp only [natCharsAux, if_neg h]
    rw [natCharsAux_irrel (n / 10) n (n / 10 + 1) (by omega) (by omega)]
    rfl

theorem natChars_ne_nil (n : Nat) : natChars n ≠ [] := by
  rw [natChars_eq]
  split <;> simp

theorem natChars_all_digit (n : Nat) : ∀ c ∈ natChars n, c.isDigit = true := by
  induction n using Nat.strongRecOn with
  | _ n ih =>
    rw [natChars_eq]
    split
    · intro c hc
      rw [List.mem_singleton] at hc
      subst hc
      exact digitChar_isDigit (by omega)
    · intro c hc
      rw [List.mem_append] at hc
      rcases hc with hc | hc
      · exact ih (n / 10) (by omega) c hc
      · rw [List.mem_singleton] at hc
        subst hc
        exact digitChar_isDigit (Nat.mod_lt _ (by omega))

theorem natChars_cons (n : Nat) :
    ∃ c t, natChars n = c :: t ∧ c.isDigit = true := by
  cases h : natChars n with
  | nil => exact absurd h (natChars_ne_nil n)
  | cons c t =>
    exact ⟨c, t, rfl, natChars_all_digit n c (h ▸ List.mem_cons_self ..)⟩

theorem takeWhile_append_all {p : Char → Bool} {xs : List Char}
    (h : ∀ c ∈ xs, p c = true) (ys : List Char) :
    (xs ++ ys).takeWhile p = xs ++ ys.takeWhile p := by
  induction xs with
  | nil => simp
  | cons c t ih =>
    have hc : p c = true := h c (List.mem_cons_self ..)
    have ht := ih (fun x hx => h x (List.mem_cons_of_mem _ hx))
    simp [List.takeWhile_cons, hc, ht]

theorem dropWhile_append_all {p : Char → Bool} {xs : List Char}
    (h : ∀ c ∈ xs, p c = true) (ys : List Char) :
    (xs ++ ys).dropWhile p = ys.dropWhile p := by
  induction xs with
  | nil => simp
  | cons c t ih =>
    have hc : p c = true := h c (List.mem_cons_self ..)
    have ht := ih (fun x hx => h x (List.mem_cons_of_mem _ hx))
    simp [List.dropWhile_cons, hc, ht]

theorem takeWhile_of_notDigitStart {rest : List Char} (h : notDigitStart rest = true) :
    rest.takeWhile (fun c => c.isDigit) = [] := by
  cases rest with
  | nil => rfl
  | cons c t =>
    simp only [notDigitStart, Bool.not_eq_true'] at h
    simp [List.takeWhile_cons, h]

theorem dropWhile_of_notDigitStart {rest : List Char} (h : notDigitStart rest = true) :
    rest.dropWhile (fun c => c.isDigit) = rest := by
  cases rest with
  | nil => rfl
  | cons c t =>
    simp only [notDigitStart, Bool.not_eq_true'] at h
    simp [List.dropWhile_cons, h]

theorem foldl_natChars (n : Nat) :
    (natChars n).foldl (fun a c => a * 10 + (c.toNat - 48)) 0 = n := by
  induction n using Nat.strongRecOn with
  | _ n ih =>
    rw [natChars_eq]
    split
    · rename_i h
      simp only [List.foldl_cons, List.foldl_nil, digitChar_toNat h]
      omega
    · rename_i h
      rw [List.foldl_append]
      simp only [List.foldl_cons, List.foldl_nil,
        digitChar_toNat (Nat.mod_lt n (by omega) : n % 10 < 10)]
      rw [ih (n / 10) (by omega)]
      omega

theorem parseNat_natChars (n : Nat) {rest : List Char}
    (hrest : notDigitStart rest = true) :
    parseNat (natChars n ++ rest) = some (n, rest) := by
  have htw : (natChars n ++ rest).takeWhile (fun c => c.isDigit) = natChars n := by
    rw [takeWhile_append_all (natChars_all_digit n), takeWhile_of_notDigitStart hrest,
      List.append_nil]
  have hdw : (natChars n ++ rest).dropWhile (fun c => c.isDigit) = rest := by
    rw [dropWhile_append_all (natChars_all_digit n), dropWhile_of_notDigitStart hrest]
  obtain ⟨c, t, hct, -⟩ := natChars_cons n
  rw [parseNat, htw, hdw, hct]
  have := foldl_natChars n
  rw [hct] at this
  simp [this]

theorem char_valid_nat (c : Char) :
    c.toNat < 55296 ∨ (57343 < c.toNat ∧ c.toNat < 1114112) := by
  have h := c.valid
  unfold UInt32.isValidChar at h
  unfold Nat.isValidChar at h
  exact h

theorem hexVal_hexDigitChar {d : Nat} (h : d < 16) :
    hexVal (hexDigitChar d) = some d := by
  interval_cases d <;> decide

theorem parseHex4_hex4chars {n : Nat} (h : n < 65536) (rest : List Char) :
    parseHex4 (hex4chars n ++ rest) = some (n, rest) := by
  have m16 : ∀ k : Nat, k % 16 < 16 := fun k => Nat.mod_lt _ (by omega)
  simp only [hex4chars, List.cons_append, List.nil_append, parseHex4,
    hexVal_hexDigitChar (m16 _)]
  have : ((n / 4096 % 16 * 16 + n / 256 % 16) * 16 + n / 16 % 16) * 16 + n % 16 = n := by
    omega
  rw [this]

theorem parseUEscape_spec_single {cs2 cs3 : List Char} {n : Nat}
    (h1 : parseHex4 cs2 = some (n, cs3))
    (hn1 : ¬ (55296 ≤ n ∧ n ≤ 56319)) (hn2 : ¬ (56320 ≤ n ∧ n ≤ 57343)) :
    parseUEscape cs2 = some (Char.ofNat n, cs3) := by
  unfold parseUEscape
  rw [h1]
  dsimp only
  rw [if_neg hn1, if_neg hn2]

theorem parseUEscape_spec_pair {cs2 cs4 cs5 : List Char} {n m : Nat}
    (h1 : parseHex4 cs2 = some (n, '\\' :: 'u' :: cs4))
    (hn : 55296 ≤ n ∧ n ≤ 56319)
    (h2 : parseHex4 cs4 = some (m, cs5))
    (hm : 56320 ≤ m ∧ m ≤ 57343) :
    parseUEscape cs2 = some (Char.ofNat (65536 + (n - 55296) * 1024 + (m - 56320)), cs5) := by
  unfold parseUEscape
  rw [h1]
  dsimp only
  rw [if_pos hn]
  rw [if_pos (⟨rfl, rfl⟩ : ('\\' : Char) = '\\' ∧ ('u' : Char) = 'u'), h2]
  dsimp only
  rw [if_pos hm]

theorem parseUEscape_bmp {c : Char} (h9 : c.toNat ≤ 65535) (tail : List Char) :
    parseUEscape (hex4chars c.toNat ++ tail) = some (c, tail) := by
  have hval := char_valid_nat c
  have hp4 := parseHex4_hex4chars (show c.toNat < 65536 by omega) tail
  have hs1 : ¬ (55296 ≤ c.toNat ∧ c.toNat ≤ 56319) := by omega
  have hs2 : ¬ (56320 ≤ c.toNat ∧ c.toNat ≤ 57343) := by omega
  rw [parseUEscape_spec_single hp4 hs1 hs2, Char.ofNat_toNat]

theorem parseUEscape_astral {c : Char} (h9 : ¬ c.toNat ≤ 65535) (tail : List Char) :
    parseUEscape (hex4chars (55296 + (c.toNat - 65536) / 1024) ++
      '\\' :: 'u' :: (hex4chars (56320 + (c.toNat - 65536) % 1024) ++ tail)) =
    some (c, tail) := by
  have hval := char_valid_nat c
  have hmod : (c.toNat - 65536) % 1024 < 1024 :=
    Nat.mod_lt (c.toNat - 65536) (by omega)
  have hhi : 55296 + (c.toNat - 65536) / 1024 < 65536 := by omega
  have hlo : 56320 + (c.toNat - 65536) % 1024 < 65536 := by omega
  have hp4a := parseHex4_hex4chars hhi
    ('\\' :: 'u' :: (hex4chars (56320 + (c.toNat - 65536) % 1024) ++ tail))
  have hp4b := parseHex4_hex4chars hlo tail
  have hs1 : 55296 ≤ 55296 + (c.toNat - 65536) / 1024 ∧
      55296 + (c.toNat - 65536) / 1024 ≤ 56319 := by omega
  have hs2 : 56320 ≤ 56320 + (c.toNat - 65536) % 1024 ∧
      56320 + (c.toNat - 65536) % 1024 ≤ 57343 := by omega
  rw [parseUEscape_spec_pair hp4a hs1 hp4b hs2]
  have harith : 65536 + (55296 + (c.toNat - 65536) / 1024 - 55296) * 1024 +
      (56320 + (c.toNat - 65536) % 1024 - 56320) = c.toNat := by omega
  rw [harith, Char.ofNat_toNat]

theorem parseStrAux_short (fuel : Nat) {e u : Char} (hne : ¬ e = 'u')
    (he : shortEscape e = some u) (cs2 : List Char) :
    parseStrAux (fuel + 1) ('\\' :: e :: cs2) =
      (parseStrAux fuel cs2).map (fun p => (u :: p.1, p.2)) := by
  simp [parseStrAux, hne, he]

theorem parseStrAux_uescape (fuel : Nat) (cs2 : List Char) :
    parseStrAux (fuel + 1) ('\\' :: 'u' :: cs2) =
      match parseUEscape cs2 with
      | some (u, cs3) => (parseStrAux fuel cs3).map (fun p => (u :: p.1, p.2))
      | none => none := by
  simp [parseStrAux]

theorem parseStrAux_escapeChar (c : Char) (fuel : Nat) (tail : List Char) :
    parseStrAux (fuel + 1) (escapeChar c ++ tail) =
      (parseStrAux fuel tail).map (fun p => (c :: p.1, p.2)) := by
  by_cases h1 : c = '"'
  · subst h1
    rw [show escapeChar '"' ++ tail = '\\' :: '"' :: tail from rfl]
    rw [parseStrAux_short fuel (by decide) (by decide : shortEscape '"' = some '"') tail]
  by_cases h2 : c = '\\'
  · subst h2
    rw [show escapeChar '\\' ++ tail = '\\' :: '\\' :: tail from rfl]
    rw [parseStrAux_short fuel (by decide) (by decide : shortEscape '\\' = some '\\') tail]
  by_cases h3 : c = '\n'
  · subst h3
    rw [show escapeChar '\n' ++ tail = '\\' :: 'n' :: tail from rfl]
    rw [parseStrAux_short fuel (by decide) (by decide : shortEscape 'n' = some '\n') tail]
  by_cases h4 : c = '\r'
  · subst h4
    rw [show escapeChar '\r' ++ tail = '\\' :: 'r' :: tail from rfl]
    rw [parseStrAux_short fuel (by decide) (by decide : shortEscape 'r' = some '\r') tail]
  by_cases h5 : c = '\t'
  · subst h5
    rw [show escapeChar '\t' ++ tail = '\\' :: 't' :: tail from rfl]
    rw [parseStrAux_short fuel (by decide) (by decide : shortEscape 't' = some '\t') tail]
  by_cases h6 : c.toNat = 8
  · have hc : Char.ofNat 8 = c := by rw [← h6, Char.ofNat_toNat]
    simp only [escapeChar, if_neg h1, if_neg h2, if_neg h3, if_neg h4, if_neg h5,
      if_pos h6, List.cons_append, List.nil_append]
    rw [parseStrAux_short fuel (by decide)
      (by decide : shortEscape 'b' = some (Char.ofNat 8)) tail, hc]
  by_cases h7 : c.toNat = 12
  · have hc : Char.ofNat 12 = c := by rw [← h7, Char.ofNat_toNat]
    simp only [escapeChar, if_neg h1, if_neg h2, if_neg h3, if_neg h4, if_neg h5,
      if_neg h6, if_pos h7, List.cons_append, List.nil_append]
    rw [parseStrAux_short fuel (by decide)
      (by decide : shortEscape 'f' = some (Char.ofNat 12)) tail, hc]
  by_cases h8 : 32 ≤ c.toNat ∧ c.toNat ≤ 126
  · simp only [escapeChar, if_neg h1, if_neg h2, if_neg h3, if_neg h4, if_neg h5,
      if_neg h6, if_neg h7, if_pos h8, List.cons_append, List.nil_append]
    simp [parseStrAux, h1, h2]
  by_cases h9 : c.toNat ≤ 65535
  · simp only [escapeChar, if_neg h1, if_neg h2, if_neg h3, if_neg h4, if_neg h5,
      if_neg h6, if_neg h7, if_neg h8, if_pos h9, uEscape, List.cons_append]
    rw [parseStrAux_uescape, parseUEscape_bmp h9 tail]
  · simp only [escapeChar, if_neg h1, if_neg h2, if_neg h3, if_neg h4, if_neg h5,
      if_neg h6, if_neg h7, if_neg h8, if_neg h9, uEscape, List.cons_append,
      List.append_assoc]
    rw [parseStrAux_uescape, parseUEscape_astral h9 tail]

theorem parseStrAux_escChars (l : List Char) : ∀ (fuel : Nat) (rest : List Char),
    l.length < fuel →
    parseStrAux fuel (escChars l ++ '"' :: rest) = some (l, rest) := by
  induction l with
  | nil =>
    intro fuel rest h
    cases fuel with
    | zero => omega
    | succ f => simp [escChars, parseStrAux]
  | cons c t ih =>
    intro fuel rest h
    cases fuel with
    | zero => omega
    | succ f =>
      have hesc : escChars (c :: t) = escapeChar c ++ escChars t := by
        simp [escChars]
      rw [hesc, List.append_assoc, parseStrAux_escapeChar,
        ih f rest (by simpa using Nat.lt_of_succ_lt_succ h)]
      rfl

theorem jsize_pos (v : JVal) : 1 ≤ jsize v := by
  cases v <;> simp [jsize]

theorem parseVal_n (fuel : Nat) (cs : List Char) :
    parseVal (fuel + 1) ('n' :: cs) =
      (parseLit ['u', 'l', 'l'] cs).map (fun r => (JVal.null, r)) := by
  simp [parseVal]

theorem parseVal_t (fuel : Nat) (cs : List Char) :
    parseVal (fuel + 1) ('t' :: cs) =
      (parseLit ['r', 'u', 'e'] cs).map (fun r => (JVal.bool true, r)) := by
  simp [parseVal]

theorem parseVal_f (fuel : Nat) (cs : List Char) :
    parseVal (fuel + 1) ('f' :: cs) =
      (parseLit ['a', 'l', 's', 'e'] cs).map (fun r => (JVal.bool false, r)) := by
  simp [parseVal]

theorem parseVal_quote (fuel : Nat) (cs : List Char) :
    parseVal (fuel + 1) ('"' :: cs) =
      (parseStrAux fuel cs).map (fun p => (JVal.str (String.mk p.1), p.2)) := by
  simp [parseVal]

theorem parseVal_lbrack (fuel : Nat) (d : Char) (rest : List Char) (hd : ¬ d = ']') :
    parseVal (fuel + 1) ('[' :: d :: rest) =
      (parseSeq fuel (d :: rest)).map (fun p => (JVal.arr p.1, p.2)) := by
  simp [parseVal, hd]

theorem parseVal_lbrace (fuel : Nat) (d : Char) (rest : List Char) (hd : ¬ d = '\x7d') :
    parseVal (fuel + 1) ('\x7b' :: d :: rest) =
      (parsePairs fuel (d :: rest)).map (fun p => (JVal.obj p.1, p.2)) := by
  simp [parseVal, hd]

theorem parseVal_minus (fuel : Nat) (cs : List Char) :
    parseVal (fuel + 1) ('-' :: cs) =
      (parseNat cs).map (fun p => (JVal.int (-(p.1 : Int)), p.2)) := by
  simp [parseVal]

theorem parseVal_digit (fuel : Nat) {d : Char} (hd : d.isDigit = true) (cs : List Char) :
    parseVal (fuel + 1) (d :: cs) =
      (parseNat (d :: cs)).map (fun p => (JVal.int (p.1 : Int), p.2)) := by
  obtain ⟨hn, ht, hf, hq, hk, hb, hm, -, -⟩ := isDigit_ne hd
  rw [show parseVal (fuel + 1) (d :: cs) =
    (if d = 'n' then (parseLit ['u', 'l', 'l'] cs).map (fun r => (JVal.null, r))
    else if d = 't' then (parseLit ['r', 'u', 'e'] cs).map (fun r => (JVal.bool true, r))
    else if d = 'f' then (parseLit ['a', 'l', 's', 'e'] cs).map (fun r => (JVal.bool false, r))
    else if d = '"' then
      (parseStrAux fuel cs).map (fun p => (JVal.str (String.mk p.1), p.2))
    else if d = '[' then
      match cs with
      | [] => none
      | e :: rest =>
        if e = ']' then some (JVal.arr [], rest)
        else (parseSeq fuel (e :: rest)).map (fun p => (JVal.arr p.1, p.2))
    else if d = '\x7b' then
      match cs with
      | [] => none
      | e :: rest =>
        if e = '\x7d' then some (JVal.obj [], rest)
        else (parsePairs fuel (e :: rest)).map (fun p => (JVal.obj p.1, p.2))
    else if d = '-' then
      (parseNat cs).map (fun p => (JVal.int (-(p.1 : Int)), p.2))
    else if d.isDigit then
      (parseNat (d :: cs)).map (fun p => (JVal.int (p.1 : Int), p.2))
    else none) from rfl]
  rw [if_neg hn, if_neg ht, if_neg hf, if_neg hq, if_neg hk, if_neg hb, if_neg hm,
    if_pos hd]

theorem dumps_head (v : JVal) :
    ∃ c t, dumpsChars v = c :: t ∧ ¬ c = ']' ∧ ¬ c = '\x7d' := by
  cases v with
  | null => exact ⟨'n', _, rfl, by decide, by decide⟩
  | bool b =>
    cases b with
    | true => exact ⟨'t', _, rfl, by decide, by decide⟩
    | false => exact ⟨'f', _, rfl, by decide, by decide⟩
  | str s => exact ⟨'"', _, rfl, by decide, by decide⟩
  | int n =>
    by_cases hn : n < 0
    · refine ⟨'-', natChars n.natAbs, ?_, by decide, by decide⟩
      simp [dumpsChars, intChars, hn]
    · obtain ⟨c, t, hct, hc⟩ := natChars_cons n.natAbs
      obtain ⟨-, -, -, -, -, -, -, h1, h2⟩ := isDigit_ne hc
      refine ⟨c, t, ?_, h1, h2⟩
      simp [dumpsChars, intChars, hn, hct]
  | arr xs =>
    cases xs with
    | nil => exact ⟨'[', _, rfl, by decide, by decide⟩
    | cons x xs => exact ⟨'[', _, rfl, by decide, by decide⟩
  | obj kvs =>
    cases kvs with
    | nil => exact ⟨'\x7b', _, rfl, by decide, by decide⟩
    | cons kv kvs => exact ⟨'\x7b', _, rfl, by decide, by decide⟩

theorem dumpsSeq_head (x : JVal) (xs : List JVal) :
    ∃ c t, dumpsSeq (x :: xs) = c :: t ∧ ¬ c = ']' ∧ ¬ c = '\x7d' := by
  obtain ⟨c, t, hct, h1, h2⟩ := dumps_head x
  cases xs with
  | nil => exact ⟨c, t, by simp [dumpsSeq, hct], h1, h2⟩
  | cons y ys =>
    exact ⟨c, t ++ ',' :: ' ' :: dumpsSeq (y :: ys), by simp [dumpsSeq, hct], h1, h2⟩

theorem notDigitStart_of {c : Char} (h : c.isDigit = false) (r : List Char) :
    notDigitStart (c :: r) = true := by
  simp [notDigitStart, h]

theorem dumpsPairs_head (k : String) (v : JVal) (kvs : List (String × JVal)) :
    ∃ t, dumpsPairs ((k, v) :: kvs) = '"' :: t := by
  cases kvs with
  | nil =>
    exact ⟨escChars k.data ++ '"' :: ':' :: ' ' :: dumpsChars v,
      by simp [dumpsPairs, strChars]⟩
  | cons kv2 kvs =>
    exact ⟨escChars k.data ++ '"' :: ':' :: ' ' ::
        (dumpsChars v ++ ',' :: ' ' :: dumpsPairs (kv2 :: kvs)),
      by simp [dumpsPairs, strChars]⟩

mutual
theorem parseVal_dumps : ∀ (fuel : Nat) (v : JVal) (rest : List Char),
    jsize v ≤ fuel → notDigitStart rest = true →
    parseVal fuel (dumpsChars v ++ rest) = some (v, rest)
  | 0, v, _, hsz, _ => by
    have := jsize_pos v
    omega
  | fuel + 1, v, rest, hsz, hrest => by
    cases v with
    | null =>
      rw [show dumpsChars JVal.null ++ rest = 'n' :: 'u' :: 'l' :: 'l' :: rest from rfl,
        parseVal_n]
      rfl
    | bool b =>
      cases b with
      | true =>
        rw [show dumpsChars (JVal.bool true) ++ rest = 't' :: 'r' :: 'u' :: 'e' :: rest
          from rfl, parseVal_t]
        rfl
      | false =>
        rw [show dumpsChars (JVal.bool false) ++ rest
          = 'f' :: 'a' :: 'l' :: 's' :: 'e' :: rest from rfl, parseVal_f]
        rfl
    | int n =>
      by_cases hn : n < 0
      · rw [show dumpsChars (JVal.int n) ++ rest = '-' :: (natChars n.natAbs ++ rest) from by
          simp [dumpsChars, intChars, hn]]
        rw [parseVal_minus, parseNat_natChars _ hrest]
        have hval : -((n.natAbs : Int)) = n := by omega
        simp only [Option.map_some']
        rw [hval]
      · obtain ⟨c, t, hct, hc⟩ := natChars_cons n.natAbs
        have hsplit : dumpsChars (JVal.int n) ++ rest = c :: (t ++ rest) := by
          simp [dumpsChars, intChars, hn, hct]
        rw [hsplit, parseVal_digit fuel hc]
        rw [show c :: (t ++ rest) = natChars n.natAbs ++ rest by simp [hct]]
        rw [parseNat_natChars _ hrest]
        have hval : ((n.natAbs : Int)) = n := by omega
        simp only [Option.map_some']
        rw [hval]
    | str s =>
      have hsplit : dumpsChars (JVal.str s) ++ rest
          = '"' :: (escChars s.data ++ '"' :: rest) := by
        simp [dumpsChars, strChars]
      have hlen : s.data.length < fuel := by
        simp only [jsize] at hsz
        omega
      rw [hsplit, parseVal_quote, parseStrAux_escChars s.data fuel rest hlen]
      simp [string_mk_data]
    | arr xs =>
      cases xs with
      | nil =>
        rw [show dumpsChars (JVal.arr []) ++ rest = '[' :: ']' :: rest from rfl]
        simp [parseVal]
      | cons x xs =>
        obtain ⟨c, t, hct, hc1, _⟩ := dumpsSeq_head x xs
        have hsplit : dumpsChars (JVal.arr (x :: xs)) ++ rest
            = '[' :: (c :: (t ++ ']' :: rest)) := by
          simp [dumpsChars, hct]
        rw [hsplit, parseVal_lbrack fuel c _ hc1]
        rw [show c :: (t ++ ']' :: rest) = dumpsSeq (x :: xs) ++ ']' :: rest by simp [hct]]
        rw [parseSeq_dumps fuel (x :: xs) rest (by simp)
          (by simp only [jsize] at hsz; omega)]
        rfl
    | obj kvs =>
      cases kvs with
      | nil =>
        rw [show dumpsChars (JVal.obj []) ++ rest = '\x7b' :: '\x7d' :: rest from rfl]
        simp [parseVal]
      | cons kv kvs =>
        obtain ⟨k, v⟩ := kv
        obtain ⟨t, ht⟩ := dumpsPairs_head k v kvs
        have hsplit : dumpsChars (JVal.obj ((k, v) :: kvs)) ++ rest
            = '\x7b' :: ('"' :: (t ++ '\x7d' :: rest)) := by
          simp [dumpsChars, ht]
        rw [hsplit, parseVal_lbrace fuel '"' _ (by decide)]
        rw [show '"' :: (t ++ '\x7d' :: rest)
          = dumpsPairs ((k, v) :: kvs) ++ '\x7d' :: rest by simp [ht]]
        rw [parsePairs_dumps fuel ((k, v) :: kvs) rest (by simp)
          (by simp only [jsize] at hsz; omega)]
        rfl

theorem parseSeq_dumps : ∀ (fuel : Nat) (xs : List JVal) (rest : List Char),
    xs ≠ [] → lsize xs ≤ fuel →
    parseSeq fuel (dumpsSeq xs ++ ']' :: rest) = some (xs, rest)
  | 0, xs, _, hne, hsz => by
    cases xs with
    | nil => exact absurd rfl hne
    | cons x xs =>
      simp only [lsize] at hsz
      have := jsize_pos x
      omega
  | fuel + 1, [], _, hne, _ => absurd rfl hne
  | fuel + 1, [x], rest, _, hsz => by
    rw [show dumpsSeq [x] ++ ']' :: rest = dumpsChars x ++ ']' :: rest from by
      simp [dumpsSeq]]
    rw [parseSeq]
    rw [parseVal_dumps fuel x (']' :: rest) (by simp only [lsize] at hsz; omega)
      (notDigitStart_of (by decide) rest)]
    try dsimp only
    rw [if_pos rfl]
  | fuel + 1, x :: y :: ys, rest, _, hsz => by
    have hsplit : dumpsSeq (x :: y :: ys) ++ ']' :: rest
        = dumpsChars x ++ (',' :: ' ' :: (dumpsSeq (y :: ys) ++ ']' :: rest)) := by
      simp [dumpsSeq]
    rw [hsplit, parseSeq]
    rw [parseVal_dumps fuel x _ (by simp only [lsize] at hsz; have := jsize_pos y; omega)
      (notDigitStart_of (by decide) _)]
    try dsimp only
    rw [if_neg (by decide : ¬ (',' : Char) = ']'), if_pos rfl]
    try dsimp only
    rw [if_pos rfl]
    rw [parseSeq_dumps fuel (y :: ys) rest (by simp)
      (by simp only [lsize] at hsz ⊢; have := jsize_pos x; omega)]

theorem parsePairs_dumps : ∀ (fuel : Nat) (kvs : List (String × JVal)) (rest : List Char),
    kvs ≠ [] → psize kvs ≤ fuel →
    parsePairs fuel (dumpsPairs kvs ++ '\x7d' :: rest) = some (kvs, rest)
  | 0, kvs, _, hne, hsz => by
    cases kvs with
    | nil => exact absurd rfl hne
    | cons kv kvs =>
      obtain ⟨k, v⟩ := kv
      simp only [psize] at hsz
      have := jsize_pos v
      omega
  | fuel + 1, [], _, hne, _ => absurd rfl hne
  | fuel + 1, [(k, v)], rest, _, hsz => by
    have hsplit : dumpsPairs [(k, v)] ++ '\x7d' :: rest
        = '"' :: (escChars k.data ++ '"' :: (':' :: ' ' :: (dumpsChars v ++ '\x7d' :: rest))) := by
      simp [dumpsPairs, strChars]
    rw [hsplit, parsePairs]
    try dsimp only
    rw [if_pos rfl]
    rw [parseStrAux_escChars k.data fuel _
      (by simp only [psize] at hsz; have := jsize_pos v; omega)]
    try dsimp only
    rw [if_pos (⟨rfl, rfl⟩ : (':' : Char) = ':' ∧ (' ' : Char) = ' ')]
    rw [parseVal_dumps fuel v _ (by simp only [psize] at hsz; omega)
      (notDigitStart_of (by decide) _)]
    try dsimp only
    rw [if_pos rfl, string_mk_data]
  | fuel + 1, (k, v) :: kv2 :: kvs, rest, _, hsz => by
    have hsplit : dumpsPairs ((k, v) :: kv2 :: kvs) ++ '\x7d' :: rest
        = '"' :: (escChars k.data ++ '"' :: (':' :: ' ' :: (dumpsChars v ++
            (',' :: ' ' :: (dumpsPairs (kv2 :: kvs) ++ '\x7d' :: rest))))) := by
      simp [dumpsPairs, strChars]
    rw [hsplit, parsePairs]
    try dsimp only
    rw [if_pos rfl]
    rw [parseStrAux_escChars k.data fuel _
      (by simp only [psize] at hsz; have h1 := jsize_pos v; omega)]
    try dsimp only
    rw [if_pos (⟨rfl, rfl⟩ : (':' : Char) = ':' ∧ (' ' : Char) = ' ')]
    rw [parseVal_dumps fuel v _ (by simp only [psize] at hsz; omega)
      (notDigitStart_of (by decide) _)]
    try dsimp only
    rw [if_neg (by decide : ¬ (',' : Char) = '\x7d'), if_pos rfl]
    try dsimp only
    rw [if_pos rfl]
    rw [parsePairs_dumps fuel (kv2 :: kvs) rest (by simp)
      (by obtain ⟨k2, v2⟩ := kv2; simp only [psize] at hsz ⊢; have := jsize_pos v; omega),
      string_mk_data]
end

theorem escapeChar_len_pos (c : Char) : 1 ≤ (escapeChar c).length := by
  unfold escapeChar
  repeat' split
  all_goals simp [uEscape, hex4chars]

theorem len_le_escChars (l : List Char) : l.length ≤ (escChars l).length := by
  induction l with
  | nil => simp [escChars]
  | cons c t ih =>
    have h1 := escapeChar_len_pos c
    have h2 : escChars (c :: t) = escapeChar c ++ escChars t := by simp [escChars]
    rw [h2, List.length_append, List.length_cons]
    omega

mutual
theorem jsize_le : ∀ v : JVal, jsize v ≤ (dumpsChars v).length + 1
  | .null => by simp [jsize, dumpsChars]
  | .bool b => by cases b <;> simp [jsize, dumpsChars]
  | .int n => by
    simp only [jsize, dumpsChars]
    omega
  | .str s => by
    have := len_le_escChars s.data
    simp only [jsize, dumpsChars, strChars, List.length_cons, List.length_append,
      List.length_singleton]
    omega
  | .arr [] => by simp [jsize, lsize, dumpsChars]
  | .arr (x :: xs) => by
    have := lsize_le (x :: xs)
    simp only [jsize, dumpsChars, List.length_cons, List.length_append,
      List.length_singleton]
    omega
  | .obj [] => by simp [jsize, psize, dumpsChars]
  | .obj (kv :: kvs) => by
    have := psize_le (kv :: kvs)
    simp only [jsize, dumpsChars, List.length_cons, List.length_append,
      List.length_singleton]
    omega

theorem lsize_le : ∀ xs : List JVal, lsize xs ≤ (dumpsSeq xs).length + 2
  | [] => by simp [lsize, dumpsSeq]
  | [x] => by
    have := jsize_le x
    simp only [lsize, dumpsSeq, List.length_cons]
    omega
  | x :: y :: ys => by
    have h1 := jsize_le x
    have h2 := lsize_le (y :: ys)
    simp only [lsize] at h2
    simp only [lsize, dumpsSeq, List.length_append, List.length_cons]
    omega

theorem psize_le : ∀ kvs : List (String × JVal), psize kvs ≤ (dumpsPairs kvs).length + 2
  | [] => by simp [psize, dumpsPairs]
  | [(k, v)] => by
    have h1 := jsize_le v
    have h2 := len_le_escChars k.data
    simp only [psize, dumpsPairs, strChars, List.length_append, List.length_cons,
      List.length_singleton]
    omega
  | (k, v) :: kv2 :: kvs => by
    have h1 := jsize_le v
    have h2 := len_le_escChars k.data
    have h3 := psize_le (kv2 :: kvs)
    obtain ⟨k2, v2⟩ := kv2
    simp only [psize] at h3
    simp only [psize, dumpsPairs, strChars, List.length_append, List.length_cons,
      List.length_singleton]
    omega
end

/-- The full serialization round trip of the modelled `json` module:
`json.loads` recovers exactly the value `json.dumps` wrote. -/
theorem loads_dumps (v : JVal) : loads (dumps v) = some v := by
  unfold loads dumps
  rw [show (String.mk (dumpsChars v)).data = dumpsChars v from rfl]
  have h1 := jsize_le v
  have h2 := parseVal_dumps ((dumpsChars v).length + 1) v [] h1 rfl
  rw [List.append_nil] at h2
  rw [h2]

/-- Model of Python `datetime.datetime`: the fields `datetime` stores, with the
timezone restricted to fixed whole-minute UTC offsets (`timezone.utc` is
offset `0`; `None` models a naive datetime). -/
structure PyDatetime where
  year : Nat
  month : Nat
  day : Nat
  hour : Nat
  minute : Nat
  second : Nat
  microsecond : Nat
  utcOffsetMinutes : Option Int
deriving DecidableEq, Repr

def isLeapYear (y : Nat) : Bool :=
  y % 4 = 0 && (!(y % 100 = 0) || y % 400 = 0)

def daysInMonth (y m : Nat) : Nat :=
  if m = 2 then (if isLeapYear y then 29 else 28)
  else if m = 4 ∨ m = 6 ∨ m = 9 ∨ m = 11 then 30
  else 31

/-- The invariants Python's `datetime` constructor enforces (`MINYEAR = 1`,
`MAXYEAR = 9999`, calendar-valid day, bounded time fields, offset strictly
within a day). -/
def PyDatetime.valid (d : PyDatetime) : Bool :=
  1 ≤ d.year && d.year ≤ 9999 && 1 ≤ d.month && d.month ≤ 12 &&
  1 ≤ d.day && d.day ≤ daysInMonth d.year d.month &&
  d.hour ≤ 23 && d.minute ≤ 59 && d.second ≤ 59 && d.microsecond ≤ 999999 &&
  (match d.utcOffsetMinutes with
   | none => true
   | some off => off.natAbs ≤ 1439)

def pad2 (n : Nat) : List Char := [digitChar (n / 10 % 10), digitChar (n % 10)]

def pad4 (n : Nat) : List Char :=
  [digitChar (n / 1000 % 10), digitChar (n / 100 % 10),
   digitChar (n / 10 % 10), digitChar (n % 10)]

def pad6 (n : Nat) : List Char :=
  [digitChar (n / 100000 % 10), digitChar (n / 10000 % 10), digitChar (n / 1000 % 10),
   digitChar (n / 100 % 10), digitChar (n / 10 % 10), digitChar (n % 10)]

/-- Characters of `datetime.isoformat()`: `YYYY-MM-DDTHH:MM:SS`, `.ffffff`
only when the microsecond field is nonzero, and `±HH:MM` only for an aware
datetime. -/
def isoChars (d : PyDatetime) : List Char :=
  pad4 d.year ++ '-' :: (pad2 d.month ++ '-' :: (pad2 d.day ++ 'T' ::
    (pad2 d.hour ++ ':' :: (pad2 d.minute ++ ':' :: (pad2 d.second ++
    ((if d.microsecond = 0 then [] else '.' :: pad6 d.microsecond) ++
     (match d.utcOffsetMinutes with
      | none => []
      | some off =>
        (if off < 0 then '-' else '+') ::
          (pad2 (off.natAbs / 60) ++ ':' :: pad2 (off.natAbs % 60)))))))))

/-- Python's `datetime.isoformat()`. -/
def PyDatetime.isoformat (d : PyDatetime) : String := String.mk (isoChars d)

def readDigit (c : Char) : Option Nat :=
  if c.isDigit then some (c.toNat - 48) else none

def read2 : List Char → Option (Nat × List Char)
  | a :: b :: rest =>
    match readDigit a, readDigit b with
    | some x, some y => some (x * 10 + y, rest)
    | _, _ => none
  | _ => none

def read4 : List Char → Option (Nat × List Char)
  | a :: b :: c :: d :: rest =>
    match readDigit a, readDigit b, readDigit c, readDigit d with
    | some x, some y, some z, some w => some (((x * 10 + y) * 10 + z) * 10 + w, rest)
    | _, _, _, _ => none
  | _ => none

def read6 : List Char → Option (Nat × List Char)
  | a :: b :: c :: d :: e :: f :: rest =>
    match readDigit a, readDigit b, readDigit c, readDigit d, readDigit e, readDigit f with
    | some u, some v, some w, some x, some y, some z =>
        some (((((u * 10 + v) * 10 + w) * 10 + x) * 10 + y) * 10 + z, rest)
    | _, _, _, _, _, _ => none
  | _ => none

def expectChar (c : Char) : List Char → Option (List Char)
  | d :: rest => if d = c then some rest else none
  | [] => none

/-- Construct the datetime after `fromisoformat`-style range validation. -/
def mkValidated (y mo da h mi s us : Nat) (off : Option Int) : Option PyDatetime :=
  if 1 ≤ y ∧ 1 ≤ mo ∧ mo ≤ 12 ∧ 1 ≤ da ∧ da ≤ daysInMonth y mo ∧
     h ≤ 23 ∧ mi ≤ 59 ∧ s ≤ 59 then
    some ⟨y, mo, da, h, mi, s, us, off⟩
  else none

/-- Trailing `±HH:MM` offset (or nothing, for a naive datetime). -/
def parseTz (y mo da h mi s us : Nat) : List Char → Option PyDatetime
  | [] => mkValidated y mo da h mi s us none
  | c :: r1 =>
    if c = '+' ∨ c = '-' then
      match read2 r1 with
      | none => none
      | some (oh, r2) =>
        match expectChar ':' r2 with
        | none => none
        | some r3 =>
          match read2 r3 with
          | none => none
          | some (om, r4) =>
            match r4 with
            | [] =>
              if oh ≤ 23 ∧ om ≤ 59 then
                mkValidated y mo da h mi s us
                  (some (if c = '-' then -((oh * 60 + om : Nat) : Int)
                         else ((oh * 60 + om : Nat) : Int)))
              else none
            | _ => none
    else none

/-- Optional `.ffffff` fraction, then the offset. -/
def parseFrac (y mo da h mi s : Nat) : List Char → Option PyDatetime
  | [] => parseTz y mo da h mi s 0 []
  | c :: r1 =>
    if c = '.' then
      match read6 r1 with
      | none => none
      | some (us, r2) => parseTz y mo da h mi s us r2
    else parseTz y mo da h mi s 0 (c :: r1)

/-- Model of `datetime.fromisoformat` on the fixed-width format `isoformat`
emits (the only form the store ever reads back). -/
def fromIsoChars (cs : List Char) : Option PyDatetime :=
  match read4 cs with
  | none => none
  | some (y, r1) =>
    match expectChar '-' r1 with
    | none => none
    | some r2 =>
      match read2 r2 with
      | none => none
      | some (mo, r3) =>
        match expectChar '-' r3 with
        | none => none
        | some r4 =>
          match read2 r4 with
          | none => none
          | some (da, r5) =>
            match expectChar 'T' r5 with
            | none => none
            | some r6 =>
              match read2 r6 with
              | none => none
              | some (h, r7) =>
                match expectChar ':' r7 with
                | none => none
                | some r8 =>
                  match read2 r8 with
                  | none => none
                  | some (mi, r9) =>
                    match expectChar ':' r9 with
                    | none => none
                    | some r10 =>
                      match read2 r10 with
                      | none => none
                      | some (s, r11) => parseFrac y mo da h mi s r11

/-- Python's `datetime.fromisoformat`. -/
def PyDatetime.fromIsoformat (s : String) : Option PyDatetime := fromIsoChars s.data

theorem readDigit_digitChar {k : Nat} (h : k < 10) : readDigit (digitChar k) = some k := by
  simp [readDigit, digitChar_isDigit h, digitChar_toNat h]

theorem read2_pad2 {n : Nat} (h : n ≤ 99) (rest : List Char) :
    read2 (pad2 n ++ rest) = some (n, rest) := by
  have m1 : n / 10 % 10 < 10 := Nat.mod_lt _ (by omega)
  have m2 : n % 10 < 10 := Nat.mod_lt _ (by omega)
  simp only [pad2, List.cons_append, List.nil_append, read2,
    readDigit_digitChar m1, readDigit_digitChar m2]
  rw [show n / 10 % 10 * 10 + n % 10 = n by omega]

theorem read4_pad4 {n : Nat} (h : n ≤ 9999) (rest : List Char) :
    read4 (pad4 n ++ rest) = some (n, rest) := by
  have m1 : n / 1000 % 10 < 10 := Nat.mod_lt _ (by omega)
  have m2 : n / 100 % 10 < 10 := Nat.mod_lt _ (by omega)
  have m3 : n / 10 % 10 < 10 := Nat.mod_lt _ (by omega)
  have m4 : n % 10 < 10 := Nat.mod_lt _ (by omega)
  simp only [pad4, List.cons_append, List.nil_append, read4,
    readDigit_digitChar m1, readDigit_digitChar m2,
    readDigit_digitChar m3, readDigit_digitChar m4]
  rw [show ((n / 1000 % 10 * 10 + n / 100 % 10) * 10 + n / 10 % 10) * 10 + n % 10 = n
    by omega]

theorem read6_pad6 {n : Nat} (h : n ≤ 999999) (rest : List Char) :
    read6 (pad6 n ++ rest) = some (n, rest) := by
  have m1 : n / 100000 % 10 < 10 := Nat.mod_lt _ (by omega)
  have m2 : n / 10000 % 10 < 10 := Nat.mod_lt _ (by omega)
  have m3 : n / 1000 % 10 < 10 := Nat.mod_lt _ (by omega)
  have m4 : n / 100 % 10 < 10 := Nat.mod_lt _ (by omega)
  have m5 : n / 10 % 10 < 10 := Nat.mod_lt _ (by omega)
  have m6 : n % 10 < 10 := Nat.mod_lt _ (by omega)
  simp only [pad6, List.cons_append, List.nil_append, read6,
    readDigit_digitChar m1, readDigit_digitChar m2, readDigit_digitChar m3,
    readDigit_digitChar m4, readDigit_digitChar m5, readDigit_digitChar m6]
  rw [show ((((n / 100000 % 10 * 10 + n / 10000 % 10) * 10 + n / 1000 % 10) * 10 +
      n / 100 % 10) * 10 + n / 10 % 10) * 10 + n % 10 = n by omega]

theorem expectChar_self (c : Char) (rest : List Char) :
    expectChar c (c :: rest) = some rest := by
  simp [expectChar]

theorem read2_pad2_nil {n : Nat} (h : n ≤ 99) : read2 (pad2 n) = some (n, []) := by
  rw [show pad2 n = pad2 n ++ [] by simp, read2_pad2 h]

theorem read6_pad6_nil {n : Nat} (h : n ≤ 999999) : read6 (pad6 n) = some (n, []) := by
  rw [show pad6 n = pad6 n ++ [] by simp, read6_pad6 h]

theorem daysInMonth_le (y m : Nat) : daysInMonth y m ≤ 31 := by
  unfold daysInMonth
  split
  · split <;> omega
  · split <;> omega

theorem parseTz_none {y mo da h mi s us : Nat}
    (hok : 1 ≤ y ∧ 1 ≤ mo ∧ mo ≤ 12 ∧ 1 ≤ da ∧ da ≤ daysInMonth y mo ∧
      h ≤ 23 ∧ mi ≤ 59 ∧ s ≤ 59) :
    parseTz y mo da h mi s us [] = some ⟨y, mo, da, h, mi, s, us, none⟩ := by
  rw [show parseTz y mo da h mi s us [] = mkValidated y mo da h mi s us none from rfl]
  unfold mkValidated
  rw [if_pos hok]

theorem parseTz_offset {y mo da h mi s us : Nat} {o : Int}
    (hok : 1 ≤ y ∧ 1 ≤ mo ∧ mo ≤ 12 ∧ 1 ≤ da ∧ da ≤ daysInMonth y mo ∧
      h ≤ 23 ∧ mi ≤ 59 ∧ s ≤ 59)
    (hoff : o.natAbs ≤ 1439) :
    parseTz y mo da h mi s us
      ((if o < 0 then '-' else '+') ::
        (pad2 (o.natAbs / 60) ++ ':' :: pad2 (o.natAbs % 60))) =
    some ⟨y, mo, da, h, mi, s, us, some o⟩ := by
  have hm : o.natAbs % 60 < 60 := Nat.mod_lt _ (by omega)
  have hd : o.natAbs / 60 ≤ 23 := by omega
  by_cases ho : o < 0
  · rw [if_pos ho]
    unfold parseTz
    try dsimp only
    rw [if_pos (Or.inr rfl)]
    simp only [read2_pad2 (show o.natAbs / 60 ≤ 99 by omega),
      read2_pad2_nil (show o.natAbs % 60 ≤ 99 by omega), expectChar_self, if_true]
    rw [if_pos ⟨hd, by omega⟩]
    have hval : -((o.natAbs / 60 * 60 + o.natAbs % 60 : Nat) : Int) = o := by omega
    rw [hval]
    unfold mkValidated
    rw [if_pos hok]
  · rw [if_neg ho]
    unfold parseTz
    try dsimp only
    rw [if_pos (Or.inl rfl)]
    simp only [read2_pad2 (show o.natAbs / 60 ≤ 99 by omega),
      read2_pad2_nil (show o.natAbs % 60 ≤ 99 by omega), expectChar_self, if_true]
    rw [if_pos ⟨hd, by omega⟩]
    rw [if_neg (by decide : ¬ ('+' : Char) = '-')]
    have hval : ((o.natAbs / 60 * 60 + o.natAbs % 60 : Nat) : Int) = o := by omega
    rw [hval]
    unfold mkValidated
    rw [if_pos hok]

/-- The datetime serialization round trip: `fromisoformat` recovers exactly
the datetime `isoformat` printed, for every value Python's `datetime`
constructor accepts. -/
theorem fromIso_iso {d : PyDatetime} (h : d.valid = true) :
    PyDatetime.fromIsoformat d.isoformat = some d := by
  obtain ⟨y, mo, da, hh, mi, ss, us, off⟩ := d
  unfold PyDatetime.fromIsoformat PyDatetime.isoformat
  rw [show (String.mk (isoChars ⟨y, mo, da, hh, mi, ss, us, off⟩)).data
    = isoChars ⟨y, mo, da, hh, mi, ss, us, off⟩ from rfl]
  have hdm := daysInMonth_le y mo
  cases off with
  | none =>
    simp only [PyDatetime.valid, Bool.and_eq_true, decide_eq_true_eq] at h
    have hok : 1 ≤ y ∧ 1 ≤ mo ∧ mo ≤ 12 ∧ 1 ≤ da ∧ da ≤ daysInMonth y mo ∧
        hh ≤ 23 ∧ mi ≤ 59 ∧ ss ≤ 59 := by
      refine ⟨?_, ?_, ?_, ?_, ?_, ?_, ?_, ?_⟩ <;> omega
    unfold isoChars fromIsoChars
    simp only [read4_pad4 (show y ≤ 9999 by omega),
      read2_pad2 (show mo ≤ 99 by omega), read2_pad2 (show da ≤ 99 by omega),
      read2_pad2 (show hh ≤ 99 by omega), read2_pad2 (show mi ≤ 99 by omega),
      read2_pad2 (show ss ≤ 99 by omega), expectChar_self]
    by_cases hus : us = 0
    · subst hus
      simp only [if_pos rfl, if_true, List.nil_append, List.append_nil]
      exact parseTz_none hok
    · simp only [if_neg hus, List.cons_append, List.append_nil]
      unfold parseFrac
      try dsimp only
      rw [if_pos rfl, read6_pad6_nil (show us ≤ 999999 by omega)]
      exact parseTz_none hok
  | some o =>
    simp only [PyDatetime.valid, Bool.and_eq_true, decide_eq_true_eq] at h
    have hok : 1 ≤ y ∧ 1 ≤ mo ∧ mo ≤ 12 ∧ 1 ≤ da ∧ da ≤ daysInMonth y mo ∧
        hh ≤ 23 ∧ mi ≤ 59 ∧ ss ≤ 59 := by
      refine ⟨?_, ?_, ?_, ?_, ?_, ?_, ?_, ?_⟩ <;> omega
    have hoff : o.natAbs ≤ 1439 := by omega
    unfold isoChars fromIsoChars
    simp only [read4_pad4 (show y ≤ 9999 by omega),
      read2_pad2 (show mo ≤ 99 by omega), read2_pad2 (show da ≤ 99 by omega),
      read2_pad2 (show hh ≤ 99 by omega), read2_pad2 (show mi ≤ 99 by omega),
      read2_pad2 (show ss ≤ 99 by omega), expectChar_self]
    by_cases hus : us = 0
    · subst hus
      simp only [if_pos rfl, if_true, List.nil_append]
      have hsign : ¬ ((if o < 0 then '-' else '+') = ('.' : Char)) := by
        by_cases ho : o < 0
        · rw [if_pos ho]; decide
        · rw [if_neg ho]; decide
      unfold parseFrac
      try dsimp only
      rw [if_neg hsign]
      exact parseTz_offset hok hoff
    · simp only [if_neg hus, List.cons_append]
      unfold parseFrac
      try dsimp only
      rw [if_pos rfl, read6_pad6 (show us ≤ 999999 by omega)]
      exact parseTz_offset hok hoff

/-- The `Session` pydantic model of `context/models.py`: field for field, with
`metadata: dict` over the modelled JSON value domain. -/
structure Session where
  id : String
  agent_source : String
  project_path : String
  title : String
  summary : String
  tags : List String
  key_decisions : List String
  files_modified : List String
  created_at : PyDatetime
  metadata : List (String × JVal)

/-- A session any Python caller can construct: its `created_at` satisfies the
invariants `datetime` itself enforces (whole-minute offsets in this model). -/
def Session.Valid (s : Session) : Prop := s.created_at.valid = true

instance (s : Session) : Decidable s.Valid := by
  unfold Session.Valid
  infer_instance

/-- One row of the `sessions` table: the hidden SQLite rowid plus the ten
TEXT columns of the schema, sequence and mapping fields as serialized text. -/
structure Row where
  rowid : Nat
  id : String
  agent_source : String
  project_path : String
  title : String
  summary : String
  tags : String
  key_decisions : String
  files_modified : String
  created_at : String
  metadata : String
deriving DecidableEq, Repr

/-- One entry of the FTS5 inverted index for external-content table
`sessions_fts`: the rowid and the `title`/`summary` values whose tokens were
indexed when the `sessions_ai` trigger ran.  Only the index is stored;
column reads go back to `sessions` by rowid. -/
structure FtsEntry where
  rowid : Nat
  title : String
  summary : String
deriving DecidableEq, Repr

/-- The persistent state `SessionStore` owns: the `sessions` table (in rowid
order) and the `sessions_fts` index. -/
structure SessionStore where
  sessions : List Row
  fts : List FtsEntry
deriving DecidableEq, Repr

/-- Serialization performed by `SessionStore.write_session`'s INSERT:
`json.dumps` on the sequence and mapping fields, `isoformat` on the
timestamp, other fields bound as-is. -/
def sessionToRow (rid : Nat) (s : Session) : Row :=
  { rowid := rid
    id := s.id
    agent_source := s.agent_source
    project_path := s.project_path
    title := s.title
    summary := s.summary
    tags := dumps (JVal.arr (s.tags.map JVal.str))
    key_decisions := dumps (JVal.arr (s.key_decisions.map JVal.str))
    files_modified := dumps (JVal.arr (s.files_modified.map JVal.str))
    created_at := s.created_at.isoformat
    metadata := dumps (JVal.obj s.metadata) }

/-- `json.loads` then pydantic validation against `list[str]`. -/
def loadsStringList (t : String) : Option (List String) :=
  match loads t with
  | some (JVal.arr xs) =>
      xs.mapM (fun v => match v with | JVal.str s => some s | _ => none)
  | _ => none

/-- `json.loads` then pydantic validation against `dict`. -/
def loadsObj (t : String) : Option (List (String × JVal)) :=
  match loads t with
  | some (JVal.obj kvs) => some kvs
  | _ => none

/-- `SessionStore._row_to_session`: deserialize one row; `none` models the
exception a malformed stored field raises. -/
def rowToSession (r : Row) : Option Session :=
  match loadsStringList r.tags, loadsStringList r.key_decisions,
        loadsStringList r.files_modified, PyDatetime.fromIsoformat r.created_at,
        loadsObj r.metadata with
  | some tg, some kd, some fm, some ca, some md =>
      some { id := r.id, agent_source := r.agent_source, project_path := r.project_path,
             title := r.title, summary := r.summary, tags := tg, key_decisions := kd,
             files_modified := fm, created_at := ca, metadata := md }
  | _, _, _, _, _ => none

/-- Error kinds the Python store layer can raise: a record that fails to
deserialize (`ValueError`/`ValidationError`), the `sqlite3.DatabaseError`
("database disk image is malformed") FTS5 raises when an index entry's
content row is missing, and the `sqlite3.OperationalError` a non-bareword
FTS5 query string raises. -/
inductive DbError where
  | malformedRecord
  | corruptIndex
  | badQuery
deriving DecidableEq, Repr

/-- SQLite rowid allocation for an INSERT without an explicit rowid: one more
than the largest rowid currently in the table.  For `INSERT OR REPLACE` the
new rowid is allocated while the conflicting row still exists, so it never
collides with it. -/
def SessionStore.nextRowid (st : SessionStore) : Nat :=
  (st.sessions.map Row.rowid).foldl max 0 + 1

/-- `SessionStore.write_session`: `INSERT OR REPLACE` plus commit.  REPLACE
deletes the conflicting row *without* firing the `sessions_ad` trigger
(`recursive_triggers` is off), then inserts the new row, whose
`sessions_ai` trigger appends the FTS index entry.  A stale index entry for
the replaced row remains. -/
def SessionStore.write_session (st : SessionStore) (s : Session) : SessionStore :=
  let rid := st.nextRowid
  { sessions := st.sessions.filter (fun r => !(r.id == s.id)) ++ [sessionToRow rid s]
    fts := st.fts ++ [{ rowid := rid, title := s.title, summary := s.summary }] }

/-- `SELECT * FROM sessions WHERE id = ?` (first match in scan order). -/
def SessionStore.getRow (st : SessionStore) (sid : String) : Option Row :=
  st.sessions.find? (fun r => r.id == sid)

/-- `SessionStore.get_session`: point lookup, `None` for an absent id, and the
deserialization error for a malformed stored row. -/
def SessionStore.get_session (st : SessionStore) (sid : String) :
    Except DbError (Option Session) :=
  match st.getRow sid with
  | none => .ok none
  | some r =>
    match rowToSession r with
    | some s => .ok (some s)
    | none => .error .malformedRecord

/-- Lexicographic byte-order comparison of two TEXT values, which is how
SQLite's default BINARY collation orders the `created_at` column (UTF-8
preserves code point order). -/
def charListLe : List Char → List Char → Bool
  | [], _ => true
  | _ :: _, [] => false
  | a :: as, b :: bs =>
    if a.toNat < b.toNat then true
    else if b.toNat < a.toNat then false
    else charListLe as bs

/-- `ORDER BY created_at DESC`: descending by the stored text. -/
def createdDesc (a b : Row) : Bool := charListLe b.created_at.data a.created_at.data

/-- Python truthiness of an optional string argument: `if project_path:` is
false for both `None` and `""`. -/
def strTruthy : Option String → Bool
  | none => false
  | some s => !s.isEmpty

/-- Insertion of `x` into a list sorted by `le`, before the first element it
compares `le` to (so equal keys keep their relative order). -/
def insertSorted (le : α → α → Bool) (x : α) : List α → List α
  | [] => [x]
  | y :: ys => if le x y then x :: y :: ys else y :: insertSorted le x ys

/-- Stable insertion sort: the deterministic order this model assigns to
SQLite's `ORDER BY` (ties keep scan order). -/
def sortRows (le : α → α → Bool) : List α → List α
  | [] => []
  | x :: xs => insertSorted le x (sortRows le xs)

/-- Row selection of `SessionStore.list_sessions`: optional exact
`project_path` filter, `ORDER BY created_at DESC`, `LIMIT`. -/
def SessionStore.list_rows (st : SessionStore) (project_path : Option String)
    (limit : Nat) : List Row :=
  (sortRows createdDesc (if strTruthy project_path then
      st.sessions.filter (fun r => r.project_path == project_path.getD "")
    else st.sessions)).take limit

/-- Deserialize fetched rows; the first malformed row fails the whole call,
as the Python list comprehension would. -/
def decodeRows (rows : List Row) : Except DbError (List Session) :=
  match rows.mapM rowToSession with
  | some l => .ok l
  | none => .error .malformedRecord

/-- `SessionStore.list_sessions`. -/
def SessionStore.list_sessions (st : SessionStore) (project_path : Option String)
    (limit : Nat) : Except DbError (List Session) :=
  decodeRows (st.list_rows project_path limit)

/-- ASCII case folding of the unicode61 tokenizer (restricted to ASCII). -/
def asciiLower (c : Char) : Char :=
  if 65 ≤ c.toNat ∧ c.toNat ≤ 90 then Char.ofNat (c.toNat + 32) else c

/-- Token characters of the tokenizer model: ASCII alphanumerics. -/
def isTokenChar (c : Char) : Bool := c.isAlphanum

/-- Maximal runs of token characters, case-folded (structural recursion on a
fuel bound; each step consumes at least one character, so `l.length + 1`
fuel always suffices). -/
def tokensAux : Nat → List Char → List String
  | 0, _ => []
  | fuel + 1, l =>
    match l with
    | [] => []
    | c :: cs =>
      if isTokenChar c then
        String.mk (asciiLower c :: (cs.takeWhile isTokenChar).map asciiLower)
          :: tokensAux fuel (cs.dropWhile isTokenChar)
      else tokensAux fuel cs

/-- Maximal runs of token characters, case-folded. -/
def tokens (l : List Char) : List String := tokensAux (l.length + 1) l

/-- Tokenization of a stored `title`/`summary` (or of the query text). -/
def tokenize (s : String) : List String := tokens s.data

/-- FTS5 MATCH for a bareword query: every query token occurs among the
tokens the entry indexed (implicit AND, case-insensitive). -/
def ftsMatch (qtoks : List String) (e : FtsEntry) : Bool :=
  qtoks.all (fun t => (tokenize e.title).contains t || (tokenize e.summary).contains t)

/-- Bareword FTS5 query strings: nonempty, only token characters and spaces.
Anything else raises the fts5 syntax error in this model. -/
def queryTokens (q : String) : Option (List String) :=
  if q.data.all (fun c => isTokenChar c || c = ' ') && !(tokenize q).isEmpty then
    some (tokenize q)
  else none

/-- The truthy exact-match predicates of `query_sessions`'s dynamically built
`AND s.project_path = ? AND s.agent_source = ?` clauses. -/
def queryFilter (project_path agent_source : Option String) (r : Row) : Bool :=
  (!strTruthy project_path || r.project_path == project_path.getD "") &&
  (!strTruthy agent_source || r.agent_source == agent_source.getD "")

/-- Row-level semantics of `SessionStore.query_sessions`'s SQL: enumerate
matching FTS entries, read `fts.id` back from the content table (erroring
if the content row is gone), join `sessions s ON s.id = fts.id`, apply the
truthy exact-match filters, order by `created_at` descending, limit. -/
def SessionStore.query_rows (st : SessionStore) (q : String)
    (project_path agent_source : Option String) (limit : Nat) :
    Except DbError (List Row) :=
  match queryTokens q with
  | none => .error .badQuery
  | some toks =>
    match (st.fts.filter (ftsMatch toks)).mapM
        (fun e => st.sessions.find? (fun r => r.rowid == e.rowid)) with
    | none => .error .corruptIndex
    | some contentRows =>
      .ok ((sortRows createdDesc
        ((contentRows.flatMap (fun c => st.sessions.filter (fun r => r.id == c.id))).filter
          (queryFilter project_path agent_source))).take limit)

/-- `SessionStore.query_sessions`. -/
def SessionStore.query_sessions (st : SessionStore) (q : String)
    (project_path agent_source : Option String) (limit : Nat) :
    Except DbError (List Session) :=
  match st.query_rows q project_path agent_source limit with
  | .error e => .error e
  | .ok rows => decodeRows rows

/-- `SessionStore.delete_session`: `DELETE FROM sessions WHERE id = ?` plus
commit.  The `sessions_ad` trigger removes, for each deleted row, the index
entry carrying that row's rowid and values; the boolean is
`cursor.rowcount > 0`. -/
def SessionStore.delete_session (st : SessionStore) (sid : String) :
    SessionStore × Bool :=
  ({ sessions := st.sessions.filter (fun r => !(r.id == sid))
     fts := st.fts.filter (fun e =>
       !((st.sessions.filter (fun r => r.id == sid)).any (fun r =>
         e.rowid == r.rowid && e.title == r.title && e.summary == r.summary))) },
   !(st.sessions.filter (fun r => r.id == sid)).isEmpty)

/-- Python list slicing `s[:n]`: the first `n` code points. -/
def pySlice (s : String) (n : Nat) : String := String.mk (s.data.take n)

/-- The response shaping of the `list_sessions` MCP tool:
`s.summary[:200] + ("..." if len(s.summary) > 200 else "")`. -/
def truncSummary (s : String) : String :=
  pySlice s 200 ++ (if s.data.length > 200 then "..." else "")

/-- Response dict of the `write_session` MCP tool. -/
structure WriteResponse where
  id : String
  status : String
  title : String
deriving DecidableEq, Repr

/-- The `write_session` MCP tool body: build the pydantic `Session` from the
call arguments (optional sequences defaulted via `or []`; `id` and
`created_at` come from the model's default factories, modelled as the
explicit inputs `genId` and `now`), store it, and shape the response. -/
def serverWriteSession (st : SessionStore) (genId : String) (now : PyDatetime)
    (agent_source project_path title summary : String)
    (tags key_decisions files_modified : Option (List String)) :
    SessionStore × WriteResponse :=
  let s : Session :=
    { id := genId, agent_source := agent_source, project_path := project_path,
      title := title, summary := summary,
      tags := tags.getD [], key_decisions := key_decisions.getD [],
      files_modified := files_modified.getD [],
      created_at := now, metadata := [] }
  (st.write_session s, { id := s.id, status := "saved", title := s.title })

/-- Boundary validation failure: a required argument absent from the call
(pydantic raises `ValidationError` before the handler body runs). -/
inductive BoundaryError where
  | missingArgument
deriving DecidableEq, Repr

/-- The `write_session` boundary as callers see it: the framework validates
the argument set against the signature — a *missing* required argument is
rejected before any storage operation, while any provided string of the
declared type (including the empty string; the model declares no length
constraint) reaches the handler. -/
def serverWriteSessionCall (st : SessionStore) (genId : String) (now : PyDatetime)
    (agent_source project_path title summary : Option String)
    (tags key_decisions files_modified : Option (List String)) :
    Except BoundaryError (SessionStore × WriteResponse) :=
  match agent_source, project_path, title, summary with
  | some a, some p, some t, some su =>
      .ok (serverWriteSession st genId now a p t su tags key_decisions files_modified)
  | _, _, _, _ => .error .missingArgument

/-- One item of the `list_sessions` MCP tool response. -/
structure ListItem where
  id : String
  agent_source : String
  project_path : String
  title : String
  summary : String
  tags : List String
  created_at : String
deriving DecidableEq, Repr

/-- The `list_sessions` MCP tool: delegate to the store, then shape each
record, truncating the summary for display. -/
def serverListSessions (st : SessionStore) (project_path : Option String)
    (limit : Nat) : Except DbError (List ListItem) :=
  match st.list_sessions project_path limit with
  | .error e => .error e
  | .ok l => .ok (l.map (fun s =>
      { id := s.id, agent_source := s.agent_source, project_path := s.project_path,
        title := s.title, summary := truncSummary s.summary, tags := s.tags,
        created_at := s.created_at.isoformat }))

/-- The full record dict the `get_session` MCP tool returns on success. -/
structure SessionRecord where
  id : String
  agent_source : String
  project_path : String
  title : String
  summary : String
  tags : List String
  key_decisions : List String
  files_modified : List String
  created_at : String
  metadata : List (String × JVal)

def recordOfSession (s : Session) : SessionRecord :=
  { id := s.id, agent_source := s.agent_source, project_path := s.project_path,
    title := s.title, summary := s.summary, tags := s.tags,
    key_decisions := s.key_decisions, files_modified := s.files_modified,
    created_at := s.created_at.isoformat, metadata := s.metadata }

/-- The two response shapes of the `get_session` MCP tool: a structured
record on success, a human-readable string for an absent id. -/
inductive GetResult where
  | notFound (msg : String)
  | found (record : SessionRecord)

/-- The `get_session` MCP tool: `if not session: return "Session {id} not
found"` (a pydantic model instance is always truthy, so this tests `None`),
else the full record. -/
def serverGetSession (st : SessionStore) (sid : String) : Except DbError GetResult :=
  match st.get_session sid with
  | .error e => .error e
  | .ok none => .ok (.notFound ("Session " ++ sid ++ " not found"))
  | .ok (some s) => .ok (.found (recordOfSession s))

/-- Days of a civil date since the era origin of the standard civil-calendar
formula (used only to *compare* instants). -/
def daysFromCivil (y m d : Nat) : Nat :=
  let yr := if 2 < m then y else y - 1
  let doy := (153 * (if 2 < m then m - 3 else m + 9) + 2) / 5 + (d - 1)
  365 * yr + yr / 4 - yr / 100 + yr / 400 + doy

/-- The instant a (valid) datetime denotes, in microseconds: wall-clock time
minus the UTC offset.  Python compares aware datetimes by exactly this
quantity. -/
def PyDatetime.instantMicro (d : PyDatetime) : Int :=
  ((((daysFromCivil d.year d.month d.day : Int) * 24 + d.hour) * 60 + d.minute
      - d.utcOffsetMinutes.getD 0) * 60 + d.second) * 1000000 + d.microsecond

/-- Chronological strict order on datetimes (Python `<` on aware values). -/
def PyDatetime.chronoLt (a b : PyDatetime) : Prop := a.instantMicro < b.instantMicro

instance (a b : PyDatetime) : Decidable (a.chronoLt b) := by
  unfold PyDatetime.chronoLt
  infer_instance

theorem mapM_extract_str (l : List String) :
    (l.map JVal.str).mapM (fun v => match v with | JVal.str s => some s | _ => none)
      = some l := by
  induction l with
  | nil => rfl
  | cons x xs ih =>
    rw [List.map_cons, List.mapM_cons, ih]
    rfl

theorem loadsStringList_dumps (l : List String) :
    loadsStringList (dumps (JVal.arr (l.map JVal.str))) = some l := by
  unfold loadsStringList
  rw [loads_dumps]
  exact mapM_extract_str l

theorem loadsObj_dumps (kvs : List (String × JVal)) :
    loadsObj (dumps (JVal.obj kvs)) = some kvs := by
  unfold loadsObj
  rw [loads_dumps]

/-- Row-level serialization round trip: deserializing the row written for a
valid session yields the session back, every field intact. -/
theorem rowToSession_sessionToRow (rid : Nat) (s : Session) (h : s.Valid) :
    rowToSession (sessionToRow rid s) = some s := by
  unfold rowToSession sessionToRow
  simp only [loadsStringList_dumps, loadsObj_dumps, fromIso_iso h]

theorem find?_filter_ne_id (l : List Row) (sid : String) :
    (l.filter (fun r => !(r.id == sid))).find? (fun r => r.id == sid) = none := by
  rw [List.find?_eq_none]
  intro r hr
  have := (List.mem_filter.mp hr).2
  simpa using this

theorem getRow_write_self (st : SessionStore) (s : Session) :
    (st.write_session s).getRow s.id = some (sessionToRow st.nextRowid s) := by
  unfold SessionStore.getRow SessionStore.write_session
  rw [List.find?_append, find?_filter_ne_id]
  have hid : ((sessionToRow st.nextRowid s).id == s.id) = true := by
    simp [sessionToRow]
  simp [List.find?, hid]

/-- `get_session` directly after `write_session` finds the freshly written
row and decodes it back to the same session. -/
theorem get_after_write (st : SessionStore) (s : Session) (h : s.Valid) :
    (st.write_session s).get_session s.id = .ok (some s) := by
  unfold SessionStore.get_session
  rw [getRow_write_self]
  try dsimp only
  rw [rowToSession_sessionToRow _ _ h]

/-- The empty store (fresh database). -/
def emptyStore : SessionStore := ⟨[], []⟩

/-- Session literal helper for the concrete scenarios. -/
def mkSess (id title summary pp asrc : String) (dt : PyDatetime) : Session :=
  { id := id, agent_source := asrc, project_path := pp, title := title,
    summary := summary, tags := [], key_decisions := [], files_modified := [],
    created_at := dt, metadata := [] }

def dtJan1 (h : Nat) : PyDatetime :=
  { year := 2024, month := 1, day := 1, hour := h, minute := 0, second := 0,
    microsecond := 0, utcOffsetMinutes := some 0 }

/-- Write id `X` twice with different content (the upsert path of C2). -/
def stOverwrite : SessionStore :=
  (emptyStore.write_session
      (mkSess "X" "apple pie" "first summary" "/p" "claude-code" (dtJan1 1))
    ).write_session
      (mkSess "X" "banana split" "second summary" "/p" "claude-code" (dtJan1 2))

theorem mem_insertSorted (le : α → α → Bool) (x a : α) :
    ∀ l : List α, a ∈ insertSorted le x l ↔ a = x ∨ a ∈ l := by
  intro l
  induction l with
  | nil => simp [insertSorted]
  | cons y ys ih =>
    by_cases h : le x y = true
    · simp [insertSorted, h]
    · simp only [insertSorted, if_neg h, List.mem_cons, ih]
      tauto

theorem mem_sortRows (le : α → α → Bool) (a : α) :
    ∀ l : List α, a ∈ sortRows le l ↔ a ∈ l := by
  intro l
  induction l with
  | nil => simp [sortRows]
  | cons x xs ih => simp [sortRows, mem_insertSorted, ih]

theorem length_insertSorted (le : α → α → Bool) (x : α) :
    ∀ l : List α, (insertSorted le x l).length = l.length + 1 := by
  intro l
  induction l with
  | nil => rfl
  | cons y ys ih =>
    by_cases h : le x y = true <;> simp [insertSorted, h, ih]

theorem length_sortRows (le : α → α → Bool) :
    ∀ l : List α, (sortRows le l).length = l.length := by
  intro l
  induction l with
  | nil => rfl
  | cons x xs ih => simp [sortRows, length_insertSorted, ih]

theorem pairwise_insertSorted (le : α → α → Bool)
    (htot : ∀ a b, le a b = true ∨ le b a = true)
    (htrans : ∀ a b c, le a b = true → le b c = true → le a c = true)
    (x : α) : ∀ l : List α, l.Pairwise (fun a b => le a b = true) →
      (insertSorted le x l).Pairwise (fun a b => le a b = true) := by
  intro l
  induction l with
  | nil => intro _; simp [insertSorted]
  | cons y ys ih =>
    intro hl
    rw [List.pairwise_cons] at hl
    by_cases hxy : le x y = true
    · simp only [insertSorted, if_pos hxy]
      rw [List.pairwise_cons]
      refine ⟨?_, List.pairwise_cons.mpr hl⟩
      intro b hb
      rcases List.mem_cons.mp hb with rfl | hb
      · exact hxy
      · exact htrans x y b hxy (hl.1 b hb)
    · simp only [insertSorted, if_neg hxy]
      rw [List.pairwise_cons]
      refine ⟨?_, ih hl.2⟩
      intro b hb
      rcases (mem_insertSorted le x b ys).mp hb with rfl | hb
      · rcases htot b y with h | h
        · exact absurd h hxy
        · exact h
      · exact hl.1 b hb

theorem pairwise_sortRows (le : α → α → Bool)
    (htot : ∀ a b, le a b = true ∨ le b a = true)
    (htrans : ∀ a b c, le a b = true → le b c = true → le a c = true) :
    ∀ l : List α, (sortRows le l).Pairwise (fun a b => le a b = true) := by
  intro l
  induction l with
  | nil => simp [sortRows]
  | cons x xs ih => exact pairwise_insertSorted le htot htrans x _ ih

theorem charListLe_total : ∀ a b : List Char,
    charListLe a b = true ∨ charListLe b a = true := by
  intro a
  induction a with
  | nil => intro b; left; rfl
  | cons x xs ih =>
    intro b
    cases b with
    | nil => right; rfl
    | cons y ys =>
      simp only [charListLe]
      rcases Nat.lt_trichotomy x.toNat y.toNat with h | h | h
      · left; simp [h]
      · have h1 : ¬x.toNat < y.toNat := by omega
        have h2 : ¬y.toNat < x.toNat := by omega
        simp only [if_neg h1, if_neg h2]
        exact ih ys
      · right; simp [h]

theorem charListLe_trans : ∀ a b c : List Char,
    charListLe a b = true → charListLe b c = true → charListLe a c = true := by
  intro a
  induction a with
  | nil => intro b c _ _; rfl
  | cons x xs ih =>
    intro b c h1 h2
    cases b with
    | nil => simp [charListLe] at h1
    | cons y ys =>
      cases c with
      | nil => simp [charListLe] at h2
      | cons z zs =>
        simp only [charListLe] at h1 h2 ⊢
        rcases Nat.lt_trichotomy x.toNat y.toNat with hxy | hxy | hxy
        · rcases Nat.lt_trichotomy y.toNat z.toNat with hyz | hyz | hyz
          · simp [show x.toNat < z.toNat by omega]
          · simp [show x.toNat < z.toNat by omega]
          · rw [if_neg (by omega), if_pos (by omega)] at h2
            simp at h2
        · rcases Nat.lt_trichotomy y.toNat z.toNat with hyz | hyz | hyz
          · simp [show x.toNat < z.toNat by omega]
          · rw [if_neg (by omega), if_neg (by omega)] at h1
            rw [if_neg (by omega), if_neg (by omega)] at h2
            rw [if_neg (by omega), if_neg (by omega)]
            exact ih ys zs h1 h2
          · rw [if_neg (by omega), if_pos (by omega)] at h2
            simp at h2
        · rw [if_neg (by omega), if_pos (by omega)] at h1
          simp at h1

theorem createdDesc_total : ∀ a b : Row,
    createdDesc a b = true ∨ createdDesc b a = true := by
  intro a b
  unfold createdDesc
  rcases charListLe_total b.created_at.data a.created_at.data with h | h
  · left; exact h
  · right; exact h

theorem createdDesc_trans : ∀ a b c : Row,
    createdDesc a b = true → createdDesc b c = true → createdDesc a c = true := by
  intro a b c h1 h2
  unfold createdDesc at h1 h2 ⊢
  exact charListLe_trans _ _ _ h2 h1

theorem mapM_option_forall₂ {α β : Type} {f : α → Option β} :
    ∀ {l : List α} {res : List β}, l.mapM f = some res →
      List.Forall₂ (fun a b => f a = some b) l res := by
  intro l
  induction l with
  | nil =>
    intro res h
    simp only [List.mapM_nil, pure, Option.some.injEq] at h
    subst h
    exact List.Forall₂.nil
  | cons x xs ih =>
    intro res h
    rw [List.mapM_cons] at h
    cases hx : f x with
    | none => rw [hx] at h; simp at h
    | some b =>
      rw [hx] at h
      cases hxs : xs.mapM f with
      | none => rw [hxs] at h; simp at h
      | some bs =>
        rw [hxs] at h
        simp at h
        subst h
        exact List.Forall₂.cons hx (ih hxs)

theorem forall₂_mem_right {α β : Type} {R : α → β → Prop} :
    ∀ {l1 : List α} {l2 : List β}, List.Forall₂ R l1 l2 →
      ∀ b ∈ l2, ∃ a ∈ l1, R a b := by
  intro l1 l2 h
  induction h with
  | nil => intro b hb; simp at hb
  | cons hR _ ih =>
    intro b hb
    rcases List.mem_cons.mp hb with rfl | hb
    · exact ⟨_, List.mem_cons_self .., hR⟩
    · obtain ⟨a, ha, hr⟩ := ih b hb
      exact ⟨a, List.mem_cons_of_mem _ ha, hr⟩

theorem forall₂_strengthen {α β : Type} {R : α → β → Prop} {C : α → Prop} :
    ∀ {l1 : List α} {l2 : List β}, List.Forall₂ R l1 l2 → (∀ a ∈ l1, C a) →
      List.Forall₂ (fun a b => R a b ∧ C a) l1 l2 := by
  intro l1 l2 h
  induction h with
  | nil => intro _; exact List.Forall₂.nil
  | cons hR _ ih =>
    intro hC
    exact List.Forall₂.cons ⟨hR, hC _ (List.mem_cons_self ..)⟩
      (ih fun a ha => hC a (List.mem_cons_of_mem _ ha))

theorem forall₂_pairwise {α β : Type} {R : α → β → Prop} {P : α → α → Prop}
    {Q : β → β → Prop} (himp : ∀ a b a' b', R a b → R a' b' → P a a' → Q b b') :
    ∀ {l1 : List α} {l2 : List β}, List.Forall₂ R l1 l2 → l1.Pairwise P →
      l2.Pairwise Q := by
  intro l1 l2 h
  induction h with
  | nil => intro _; exact List.Pairwise.nil
  | cons hR htail ih =>
    intro hp
    rw [List.pairwise_cons] at hp ⊢
    refine ⟨?_, ih hp.2⟩
    intro b' hb'
    obtain ⟨a', ha', hr'⟩ := forall₂_mem_right htail b' hb'
    exact himp _ _ _ _ hR hr' (hp.1 a' ha')

theorem decodeRows_forall₂ {rows : List Row} {out : List Session}
    (h : decodeRows rows = .ok out) :
    List.Forall₂ (fun r s => rowToSession r = some s) rows out := by
  unfold decodeRows at h
  split at h
  · rename_i l hl
    injection h with h'
    subst h'
    exact mapM_option_forall₂ hl
  · exact absurd h (by simp)

theorem rowToSession_fields {r : Row} {s : Session} (h : rowToSession r = some s) :
    s.id = r.id ∧ s.agent_source = r.agent_source ∧ s.project_path = r.project_path ∧
      s.title = r.title ∧ s.summary = r.summary ∧
      PyDatetime.fromIsoformat r.created_at = some s.created_at := by
  unfold rowToSession at h
  cases htg : loadsStringList r.tags with
  | none => rw [htg] at h; exact absurd h (by simp)
  | some tg =>
    rw [htg] at h
    cases hkd : loadsStringList r.key_decisions with
    | none => rw [hkd] at h; exact absurd h (by simp)
    | some kd =>
      rw [hkd] at h
      cases hfm : loadsStringList r.files_modified with
      | none => rw [hfm] at h; exact absurd h (by simp)
      | some fm =>
        rw [hfm] at h
        cases hca : PyDatetime.fromIsoformat r.created_at with
        | none => rw [hca] at h; exact absurd h (by simp)
        | some ca =>
          rw [hca] at h
          cases hmd : loadsObj r.metadata with
          | none => rw [hmd] at h; exact absurd h (by simp)
          | some md =>
            rw [hmd] at h
            injection h with h'
            subst h'
            exact ⟨rfl, rfl, rfl, rfl, rfl, rfl⟩

theorem query_rows_sound {st : SessionStore} {q : String} {pp asrc : Option String}
    {lim : Nat} {rows : List Row} (h : st.query_rows q pp asrc lim = .ok rows) :
    ∀ r ∈ rows, r ∈ st.sessions ∧ queryFilter pp asrc r = true := by
  unfold SessionStore.query_rows at h
  split at h
  · exact absurd h (by simp)
  · split at h
    · exact absurd h (by simp)
    · injection h with h'
      subst h'
      intro r hr
      have h1 := List.mem_of_mem_take hr
      rw [mem_sortRows, List.mem_filter] at h1
      obtain ⟨hj, hf⟩ := h1
      rw [List.mem_flatMap] at hj
      obtain ⟨c, -, hrc⟩ := hj
      exact ⟨(List.mem_filter.mp hrc).1, hf⟩

theorem list_rows_mem {st : SessionStore} {pp : Option String} {n : Nat} :
    ∀ r ∈ st.list_rows pp n, r ∈ st.sessions ∧
      (strTruthy pp = true → (r.project_path == pp.getD "") = true) := by
  intro r hr
  unfold SessionStore.list_rows at hr
  have h1 := List.mem_of_mem_take hr
  rw [mem_sortRows] at h1
  by_cases hp : strTruthy pp = true
  · rw [if_pos hp] at h1
    rw [List.mem_filter] at h1
    exact ⟨h1.1, fun _ => h1.2⟩
  · rw [if_neg hp] at h1
    exact ⟨h1, fun hc => absurd hc hp⟩

/-- A store whose `created_at` texts are canonical isoformat output:
re-serializing the parsed timestamp reproduces the stored text exactly.
Every row `write_session` produces is of this shape. -/
def CanonicalRows (st : SessionStore) : Prop :=
  ∀ r ∈ st.sessions,
    (PyDatetime.fromIsoformat r.created_at).map PyDatetime.isoformat
      = some r.created_at

instance (st : SessionStore) : Decidable (CanonicalRows st) := by
  unfold CanonicalRows
  exact List.decidableBAll _ _

/-! ### Concrete scenario data -/

def sesX1 : Session := mkSess "X" "apple pie" "first summary" "/p" "claude-code" (dtJan1 1)

def sesX2 : Session := mkSess "X" "banana split" "second summary" "/p" "claude-code" (dtJan1 2)

def sesY : Session := mkSess "Y" "cherry tart" "third note" "/py" "cursor" (dtJan1 5)

/-- Delete the twice-written id, then store an unrelated session: SQLite
reuses the freed rowid, re-attaching the stale index entry. -/
def stReused : SessionStore :=
  ((stOverwrite.delete_session "X").1).write_session sesY

def dtPlus10 : PyDatetime :=
  { year := 2024, month := 1, day := 1, hour := 12, minute := 0, second := 0,
    microsecond := 0, utcOffsetMinutes := some 600 }

/-- Wall-clock 12:00 at UTC+10:00, i.e. 02:00 UTC. -/
def sesA7 : Session := mkSess "A7" "early by clock" "sa" "/p7" "agent" dtPlus10

/-- Wall-clock 03:00 at UTC+00:00, i.e. 03:00 UTC: later than `sesA7`. -/
def sesB7 : Session := mkSess "B7" "late by clock" "sb" "/p7" "agent" (dtJan1 3)

def stC7 : SessionStore := (emptyStore.write_session sesB7).write_session sesA7

def longSummary : String := String.mk (List.replicate 500 'x')

def sesL : Session := mkSess "L8" "long summary" longSummary "/p8" "agent" (dtJan1 4)

def stC8 : SessionStore := emptyStore.write_session sesL

def sesEmptyTitle : Session := mkSess "E1" "" "some work" "/p4" "claude-code" (dtJan1 6)

def stW3 : SessionStore :=
  emptyStore.write_session (mkSess "W" "tw" "sw" "/pw" "aw" (dtJan1 8))

/-! ### The claims -/

/-- Claim C1: for every valid session `S`, `write_session S` followed by
`get_session S.id` returns a record equal to `S` in every field — the
serialize/deserialize pair is a round trip. -/
theorem write_get_roundtrip (st : SessionStore) (s : Session) (h : s.Valid) :
    (st.write_session s).get_session s.id = .ok (some s) :=
  get_after_write st s h

def sampleSession : Session :=
  { id := "abc123def456", agent_source := "claude-code",
    project_path := "/home/user/myproject",
    title := "Added user authentication",
    summary := "Implemented JWT-based auth with login/register endpoints.",
    tags := ["auth", "backend"], key_decisions := ["Chose JWT over sessions"],
    files_modified := ["src/auth.py", "src/routes.py"],
    created_at := { year := 2024, month := 5, day := 17, hour := 14, minute := 30,
                    second := 5, microsecond := 123456, utcOffsetMinutes := some 0 },
    metadata := [("count", JVal.int (-42)), ("ok", JVal.bool true),
                 ("note", JVal.str "hello bs\\quote\"nl\n"),
                 ("nested", JVal.obj [("xs", JVal.arr [JVal.null, JVal.int 7])])] }

theorem write_get_roundtrip_witness :
    sampleSession.Valid ∧
      (emptyStore.write_session sampleSession).get_session sampleSession.id
        = .ok (some sampleSession) :=
  ⟨by decide, write_get_roundtrip emptyStore sampleSession (by decide)⟩

/-- Claim C2 (the code diverges): writing id `X` twice leaves exactly one row
holding the latest content, but the FTS index does *not* reflect only the
latest content — the stale entry for the old title/summary survives the
`INSERT OR REPLACE` (the implicit delete fires no trigger), so a query on a
term of the old title raises the FTS corruption error (its content row is
gone) instead of returning zero rows, while the new content is queryable. -/
theorem upsert_stale_index_bug :
    stOverwrite.sessions.map Row.id = ["X"] ∧
    stOverwrite.get_session "X" = .ok (some sesX2) ∧
    ((tokenize sesX2.title).contains "apple"
      || (tokenize sesX2.summary).contains "apple") = false ∧
    stOverwrite.query_sessions "apple" none none 10 = .error .corruptIndex ∧
    stOverwrite.query_sessions "banana" none none 10 = .ok [sesX2] :=
  ⟨rfl, rfl, rfl, rfl, rfl⟩

/-- Claim C3: `delete_session` removes the record and its index entry and
returns whether a record existed; afterwards `get_session` is not-found, no
successful query returns the id, a second delete returns false, and deleting
a never-stored id returns false and changes nothing. -/
theorem delete_session_spec (st : SessionStore) (sid : String) :
    ((st.delete_session sid).2 = true ↔ ∃ r ∈ st.sessions, r.id = sid) ∧
    (st.delete_session sid).1.get_session sid = .ok none ∧
    (∀ e ∈ (st.delete_session sid).1.fts, ∀ r ∈ st.sessions, r.id = sid →
      ¬(e.rowid = r.rowid ∧ e.title = r.title ∧ e.summary = r.summary)) ∧
    (∀ q pp asrc lim out,
      (st.delete_session sid).1.query_sessions q pp asrc lim = .ok out →
      ∀ s ∈ out, s.id ≠ sid) ∧
    ((st.delete_session sid).1.delete_session sid).2 = false ∧
    ((∀ r ∈ st.sessions, r.id ≠ sid) → st.delete_session sid = (st, false)) := by
  have hsess : (st.delete_session sid).1.sessions
      = st.sessions.filter (fun r => !(r.id == sid)) := rfl
  refine ⟨?_, ?_, ?_, ?_, ?_, ?_⟩
  · constructor
    · intro h
      cases hh : st.sessions.filter (fun r => r.id == sid) with
      | nil =>
        rw [show (st.delete_session sid).2
          = !(st.sessions.filter (fun r => r.id == sid)).isEmpty from rfl, hh] at h
        simp at h
      | cons a t =>
        have ha : a ∈ st.sessions.filter (fun r => r.id == sid) := by
          rw [hh]; exact List.mem_cons_self ..
        rw [List.mem_filter] at ha
        exact ⟨a, ha.1, by simpa using ha.2⟩
    · rintro ⟨r, hr, rfl⟩
      have hmem : r ∈ st.sessions.filter (fun r' => r'.id == r.id) :=
        List.mem_filter.mpr ⟨hr, by simp⟩
      rw [show (st.delete_session r.id).2
        = !(st.sessions.filter (fun r' => r'.id == r.id)).isEmpty from rfl]
      cases hh : st.sessions.filter (fun r' => r'.id == r.id) with
      | nil => rw [hh] at hmem; simp at hmem
      | cons a t => rfl
  · have hg : (st.delete_session sid).1.getRow sid = none :=
      find?_filter_ne_id st.sessions sid
    unfold SessionStore.get_session
    rw [hg]
  · intro e he r hr hid hcon
    have hmem := (List.mem_filter.mp he).2
    rw [Bool.not_eq_eq_eq_not, Bool.not_true, List.any_eq_false] at hmem
    have hrdel : r ∈ st.sessions.filter (fun r' => r'.id == sid) :=
      List.mem_filter.mpr ⟨hr, by simp [hid]⟩
    have := hmem r hrdel
    simp [hcon.1, hcon.2.1, hcon.2.2] at this
  · intro q pp asrc lim out hq s hs
    unfold SessionStore.query_sessions at hq
    split at hq
    · exact absurd hq (by simp)
    · rename_i rows hrows
      have hf := decodeRows_forall₂ hq
      obtain ⟨r, hrmem, hrs⟩ := forall₂_mem_right hf s hs
      have hsound := query_rows_sound hrows r hrmem
      have hrid := (rowToSession_fields hrs).1
      have hr1 := hsound.1
      rw [hsess, List.mem_filter] at hr1
      have hne : r.id ≠ sid := by simpa using hr1.2
      exact fun hcon => hne (hrid.symm.trans hcon)
  · show (!((st.delete_session sid).1.sessions.filter
      (fun r => r.id == sid)).isEmpty) = false
    rw [hsess]
    have h0 : (st.sessions.filter (fun r => !(r.id == sid))).filter
        (fun r => r.id == sid) = [] := by
      rw [List.filter_eq_nil_iff]
      intro r hr
      have := (List.mem_filter.mp hr).2
      simpa using this
    rw [h0]
    rfl
  · intro hnone
    obtain ⟨ss, ft⟩ := st
    have h1 : ss.filter (fun r => r.id == sid) = [] := by
      rw [List.filter_eq_nil_iff]
      intro r hr
      simpa using hnone r hr
    have h2 : ss.filter (fun r => !(r.id == sid)) = ss := by
      rw [List.filter_eq_self]
      intro r hr
      simpa using hnone r hr
    unfold SessionStore.delete_session
    simp only [h1, h2, List.any_nil, Bool.not_false, List.filter_true,
      List.isEmpty_nil]
    rfl

theorem delete_session_spec_witness :
    (stW3.delete_session "W").2 = true ∧
    (stW3.delete_session "W").1.get_session "W" = .ok none ∧
    ((stW3.delete_session "W").1.delete_session "W").2 = false ∧
    stW3.delete_session "Z" = (stW3, false) := by
  have h := delete_session_spec stW3 "W"
  have h2 := delete_session_spec stW3 "Z"
  exact ⟨h.1.mpr (by decide), h.2.1, h.2.2.2.2.1, h2.2.2.2.2.2 (by decide)⟩

/-- Claim C4, counterexample: a `write_session` boundary call whose `title`
argument is the *empty string* is not rejected — pydantic's `str` field has
no length constraint, so the call succeeds with status `saved` and the
empty-titled record is stored and retrievable. -/
theorem empty_title_accepted :
    serverWriteSessionCall emptyStore "E1" (dtJan1 6) (some "claude-code")
        (some "/p4") (some "") (some "some work") none none none
      = .ok (emptyStore.write_session sesEmptyTitle,
          { id := "E1", status := "saved", title := "" }) ∧
    (emptyStore.write_session sesEmptyTitle).get_session "E1"
      = .ok (some sesEmptyTitle) :=
  ⟨rfl, rfl⟩

/-- Claim C4 (amended): the boundary rejects a call exactly when a required
argument is *missing*; any provided title — the empty string included —
reaches the handler and is stored. -/
theorem write_call_validation (st : SessionStore) (genId : String)
    (now : PyDatetime) (a p t su : Option String)
    (tg kd fm : Option (List String)) :
    (serverWriteSessionCall st genId now a p t su tg kd fm
        = .error .missingArgument ↔
      a = none ∨ p = none ∨ t = none ∨ su = none) ∧
    (∀ a' p' t' su', a = some a' → p = some p' → t = some t' → su = some su' →
      serverWriteSessionCall st genId now a p t su tg kd fm
        = .ok (serverWriteSession st genId now a' p' t' su' tg kd fm)) := by
  constructor
  · cases a <;> cases p <;> cases t <;> cases su <;>
      simp [serverWriteSessionCall]
  · intro a' p' t' su' ha hp ht hsu
    subst ha hp ht hsu
    rfl

theorem write_call_validation_witness :
    serverWriteSessionCall emptyStore "E2" (dtJan1 7) (some "agent")
        (some "/p4") none (some "sum") none none none
      = .error .missingArgument ∧
    serverWriteSessionCall emptyStore "E2" (dtJan1 7) (some "agent")
        (some "/p4") (some "") (some "sum") none none none
      = .ok (serverWriteSession emptyStore "E2" (dtJan1 7) "agent" "/p4" "" "sum"
          none none none) :=
  ⟨(write_call_validation emptyStore "E2" (dtJan1 7) (some "agent") (some "/p4")
      none (some "sum") none none none).1.mpr (Or.inr (Or.inr (Or.inl rfl))),
   (write_call_validation emptyStore "E2" (dtJan1 7) (some "agent") (some "/p4")
      (some "") (some "sum") none none none).2 "agent" "/p4" "" "sum"
      rfl rfl rfl rfl⟩

/-- Claim C5 (the code diverges): after the freed rowid of a deleted,
twice-written id is reused for the unrelated session `Y`, the stale index
entry attaches to `Y`: a query for "apple" returns `Y` although neither its
title nor its summary contains that term — search is not confined to the
record's own title and summary. -/
theorem ghost_text_match_bug :
    ((tokenize sesY.title).contains "apple"
      || (tokenize sesY.summary).contains "apple") = false ∧
    stReused.query_sessions "apple" none none 10 = .ok [sesY] :=
  ⟨rfl, rfl⟩

/-- Claim C6 (the code diverges): with both exact-match filters supplied, the
query still returns the ghost record `Y` — its `project_path` and
`agent_source` equal the filters, but its text does not match the query, so
the conjunction "text matches AND filters hold" is violated. -/
theorem ghost_filter_match_bug :
    sesY.project_path = "/py" ∧ sesY.agent_source = "cursor" ∧
    ((tokenize sesY.title).contains "apple"
      || (tokenize sesY.summary).contains "apple") = false ∧
    stReused.query_sessions "apple" (some "/py") (some "cursor") 10
      = .ok [sesY] :=
  ⟨rfl, rfl, rfl, rfl⟩

/-- Claim C7, counterexample: `list_sessions` orders by the *text* of
`created_at`, which disagrees with chronological order for mixed UTC
offsets: `sesA7` (02:00 UTC, printed `12:00:00+10:00`) sorts before the
chronologically later `sesB7` (03:00 UTC, printed `03:00:00+00:00`), so
the listing is not most-recent-first. -/
theorem list_order_counterexample :
    stC7.list_sessions none 20 = .ok [sesA7, sesB7] ∧
    sesA7.created_at.chronoLt sesB7.created_at :=
  ⟨rfl, by decide⟩

/-- Claim C7 (amended): `list_sessions limit=N` returns `min N count`
records — at most `N`, and all stored records for the project when they fit —
non-increasing by the *stored text* of `created_at` (for canonically
serialized rows, by `isoformat` text, not by instant), and, under a truthy
`project_path` filter, only records whose `project_path` equals it. -/
theorem list_sessions_ordering (st : SessionStore) (pp : Option String)
    (n : Nat) (out : List Session) (hc : CanonicalRows st)
    (h : st.list_sessions pp n = .ok out) :
    out.length = min n (if strTruthy pp then
        (st.sessions.filter (fun r => r.project_path == pp.getD "")).length
      else st.sessions.length) ∧
    out.Pairwise (fun a b =>
      charListLe b.created_at.isoformat.data a.created_at.isoformat.data
        = true) ∧
    (strTruthy pp = true → ∀ s ∈ out, s.project_path = pp.getD "") := by
  have hf := decodeRows_forall₂ h
  refine ⟨?_, ?_, ?_⟩
  · rw [← List.Forall₂.length_eq hf]
    unfold SessionStore.list_rows
    rw [List.length_take, length_sortRows]
    by_cases hp : strTruthy pp = true <;> simp [hp]
  · have hsorted : (st.list_rows pp n).Pairwise
        (fun a b => createdDesc a b = true) := by
      unfold SessionStore.list_rows
      exact List.Pairwise.sublist (List.take_sublist _ _)
        (pairwise_sortRows createdDesc createdDesc_total createdDesc_trans _)
    have hmem : ∀ r ∈ st.list_rows pp n, r ∈ st.sessions :=
      fun r hr => (list_rows_mem r hr).1
    refine forall₂_pairwise ?_ (forall₂_strengthen hf hmem) hsorted
    rintro r s r' s' ⟨hrs, hrmem⟩ ⟨hrs', hrmem'⟩ hP
    have hcan := hc r hrmem
    have hcan' := hc r' hrmem'
    rw [(rowToSession_fields hrs).2.2.2.2.2, Option.map_some'] at hcan
    rw [(rowToSession_fields hrs').2.2.2.2.2, Option.map_some'] at hcan'
    injection hcan with hiso
    injection hcan' with hiso'
    rw [hiso, hiso']
    exact hP
  · intro hp s hs
    obtain ⟨r, hrmem, hrs⟩ := forall₂_mem_right hf s hs
    have hfilter := (list_rows_mem r hrmem).2 hp
    rw [(rowToSession_fields hrs).2.2.1]
    simpa using hfilter

theorem list_sessions_ordering_witness :
    stC7.list_sessions none 20 = .ok [sesA7, sesB7] ∧
    ([sesA7, sesB7] : List Session).length = min 20 stC7.sessions.length ∧
    List.Pairwise (fun a b =>
      charListLe b.created_at.isoformat.data a.created_at.isoformat.data
        = true) [sesA7, sesB7] := by
  have h := list_sessions_ordering stC7 none 20 [sesA7, sesB7] (by decide) rfl
  exact ⟨rfl, h.1, h.2.1⟩

/-- Claim C8: the `list_sessions` tool response carries
`summary[:200] + "..."` exactly when the stored summary exceeds 200
characters and the summary unchanged otherwise, while the `get_session`
tool response always carries the full stored summary. -/
theorem summary_truncation_spec (st : SessionStore) (pp : Option String)
    (n : Nat) (out : List Session) (h : st.list_sessions pp n = .ok out) :
    serverListSessions st pp n = .ok (out.map (fun s =>
      { id := s.id, agent_source := s.agent_source,
        project_path := s.project_path, title := s.title,
        summary := truncSummary s.summary, tags := s.tags,
        created_at := s.created_at.isoformat })) ∧
    (∀ s ∈ out,
      (s.summary.data.length ≤ 200 → truncSummary s.summary = s.summary) ∧
      (200 < s.summary.data.length →
        truncSummary s.summary = String.mk (s.summary.data.take 200) ++ "...")) ∧
    (∀ sid s, st.get_session sid = .ok (some s) →
      serverGetSession st sid = .ok (.found (recordOfSession s)) ∧
      (recordOfSession s).summary = s.summary) := by
  refine ⟨?_, ?_, ?_⟩
  · unfold serverListSessions
    rw [h]
  · intro s _
    constructor
    · intro hle
      unfold truncSummary pySlice
      rw [if_neg (by omega), List.take_of_length_le hle]
      have happ : String.mk s.summary.data ++ "" = String.mk (s.summary.data ++ []) :=
        rfl
      rw [happ, List.append_nil, string_mk_data]
    · intro hgt
      unfold truncSummary pySlice
      rw [if_pos (by omega)]
  · intro sid s hget
    unfold serverGetSession
    rw [hget]
    exact ⟨rfl, rfl⟩

set_option maxRecDepth 8192 in
theorem summary_truncation_witness :
    stC8.list_sessions none 20 = .ok [sesL] ∧
    truncSummary longSummary = String.mk (longSummary.data.take 200) ++ "..." ∧
    serverGetSession stC8 "L8" = .ok (.found (recordOfSession sesL)) := by
  have h := summary_truncation_spec stC8 none 20 [sesL] rfl
  exact ⟨rfl, (h.2.1 sesL (List.mem_singleton.mpr rfl)).2 (by decide),
    (h.2.2 "L8" sesL rfl).1⟩

/-- Claim C9: the `get_session` boundary has exactly two result shapes for a
well-formed store — a human-readable string for an absent id (never an
error), a structured record when the id decodes — and the store itself
returns the `none` sentinel, not an error, for an absent id. -/
theorem get_session_shapes (st : SessionStore) (sid : String) :
    (st.getRow sid = none →
      st.get_session sid = .ok none ∧
      serverGetSession st sid
        = .ok (.notFound ("Session " ++ sid ++ " not found"))) ∧
    (∀ s, st.get_session sid = .ok (some s) →
      serverGetSession st sid = .ok (.found (recordOfSession s))) := by
  constructor
  · intro hnone
    have hg : st.get_session sid = .ok none := by
      unfold SessionStore.get_session
      rw [hnone]
    refine ⟨hg, ?_⟩
    unfold serverGetSession
    rw [hg]
  · intro s hs
    unfold serverGetSession
    rw [hs]

theorem get_session_shapes_witness :
    emptyStore.get_session "missing" = .ok none ∧
    serverGetSession emptyStore "missing"
      = .ok (.notFound "Session missing not found") :=
  (get_session_shapes emptyStore "missing").1 rfl

/-- Claim C10: the store tests its optional filters for Python truthiness,
so an empty-string `project_path` (or `agent_source`) behaves exactly like
no filter at all, for `list_sessions` and `query_sessions` alike. -/
theorem empty_filter_ignored (st : SessionStore) (q : String)
    (p a : Option String) (n : Nat) :
    st.list_sessions (some "") n = st.list_sessions none n ∧
    st.query_sessions q (some "") a n = st.query_sessions q none a n ∧
    st.query_sessions q p (some "") n = st.query_sessions q p none n :=
  ⟨rfl, rfl, rfl⟩

end AgentShare
